import Mathlib

/-!
AsyncReplayWriter: a sequential model of the command-queue file writer

Embedding of `Common/AsyncReplayWriter.h` and `Common/AsyncReplayWriter.cpp`.

* The C++ object is the record `State`; every member function is a function on `State`.
* The C runtime (`fopen`, `fwrite`, `fseek`, `fflush`, `fclose`) is modelled with two
  views of the file system carried in the state: `files` is what the streams hold for
  each path, the bytes `fwrite` has accepted included, and `disk` is what has reached the
  file itself.  An `fwrite` only fills the stream; the bytes reach `disk` when the runtime
  writes the stream out: on an `fflush` or `fclose` that succeeds, or when the stream
  spills on its own.  The code drops the results of `fflush` and `fclose`, so a failed
  one loses the bytes silently.  The list `calls` holds the library calls made so far.
  What the device decides (whether a path opens, how many bytes a `fwrite` accepts,
  whether a stream spills, whether an `fflush` or `fclose` succeeds) is read from an
  environment `Env`.
* `DEBUG_LOG` lines are appended to `log`.
* The two threads meet at the queue only.  One iteration of the loop in `processQueue`
  (pop under the lock, then execute) is one atomic worker step `workerStep`; a facade
  call is one atomic producer step, except `closeFile`, whose bounded wait lets the
  worker run in between.
* `UnsignedInt` and `size_t` are 32-bit: arithmetic on them is taken modulo `2^32`.
-/

namespace AsyncReplayWriter

/-- One octet of payload. -/
abbrev Byte := Fin 256

/-- A file name (`AsciiString` / `const char*`). -/
abbrev Path := String

/-- The file system: the content of every file that exists. -/
abbrev Files := Path → Option (List Byte)

/-- Width of `UnsignedInt` and of `size_t` on the 32-bit target. -/
def UINT_RANGE : Nat := 2 ^ 32

/-- Value of `static const UnsignedInt MAX_QUEUE_SIZE = 1024;`. -/
def MAX_QUEUE_SIZE : Nat := 1024

/-- The enum `ReplayWriteCommand::CommandType`. -/
inductive CommandType where
  | CMD_WRITE_DATA
  | CMD_SEEK
  | CMD_FLUSH
  | CMD_CLOSE
  deriving DecidableEq, Repr

/-- The struct `ReplayWriteCommand`; `data = none` is the NULL pointer. -/
structure ReplayWriteCommand where
  type : CommandType := CommandType.CMD_WRITE_DATA
  data : Option (List Byte) := none
  dataSize : Nat := 0
  seekOffset : Nat := 0
  seekOrigin : Int := 0
  deriving DecidableEq, Repr

/-- An open `FILE*`: the file it was opened on and the cursor. -/
structure Handle where
  path : Path
  pos : Nat
  deriving DecidableEq, Repr

/-- A call into the C runtime, as the worker made it. -/
inductive SysCall where
  | fopen (path : Path) (ok : Bool)
  | fwrite (path : Path) (requested : Nat) (written : Nat)
  | fseek (path : Path) (offset : Nat) (origin : Int)
  | fflush (path : Path)
  | fclose (path : Path)
  deriving DecidableEq, Repr

/-- A `DEBUG_LOG` line. -/
inductive LogMsg where
  | started
  | queuedOpen (path : Path)
  | queueFull (capacity : Nat)
  | openFailed (path : Path)
  | shortWrite (written : Nat) (requested : Nat)
  | fileClosed
  | threadExiting
  deriving DecidableEq, Repr

/-- What the device decides: whether `fopen(path, "wb")` succeeds; how many bytes the
`k`-th library call accepts when `fwrite` asks for `n` (never more than `n` is taken);
whether the `k`-th library call, an `fwrite` or `fseek`, also writes the stream out to the
file (a full buffer, a seek); and whether the `k`-th library call, an `fflush` or
`fclose`, succeeds in writing the stream out. -/
structure Env where
  canOpen : Path → Bool
  accepts : Nat → Nat → Nat
  spills : Nat → Bool
  flushes : Nat → Bool

/-- The members of `AsyncReplayWriter`, the two views of the file system (`files`: the
content of every file as the streams hold it, accepted bytes included; `disk`: the bytes
that have reached the file itself) and the two traces. -/
structure State where
  m_file : Option Handle
  m_filename : Path
  m_writeQueue : List ReplayWriteCommand
  m_running : Bool
  m_shouldExit : Bool
  m_totalWrites : Nat
  m_totalBytesWritten : Nat
  m_peakQueueSize : Nat
  files : Files
  disk : Files
  calls : List SysCall
  log : List LogMsg

/-- Whether `fopen(path, "wb")` succeeds: never on the empty name. -/
def Env.opens (env : Env) (path : Path) : Bool :=
  !(decide (path = "")) && env.canOpen path

/-- Every `fwrite` takes all the bytes it is given. -/
def Env.complete (env : Env) : Prop :=
  ∀ k n, env.accepts k n = n

/-- Every `fflush` and every `fclose` succeeds. -/
def Env.durable (env : Env) : Prop :=
  ∀ k, env.flushes k = true

/-- Content of a file after `data` is written at offset `pos`: a gap past the end is
filled with zero bytes, bytes under the data are overwritten. -/
def writeAt (content : List Byte) (pos : Nat) (data : List Byte) : List Byte :=
  if data = [] then content
  else
    let padded := content ++ List.replicate (pos - content.length) (0 : Byte)
    padded.take pos ++ data ++ padded.drop (pos + data.length)

/-- The `long` a 32-bit `UnsignedInt` converts to. -/
def toLong (u : Nat) : Int :=
  if u % UINT_RANGE < 2 ^ 31 then ((u % UINT_RANGE : Nat) : Int)
  else ((u % UINT_RANGE : Nat) : Int) - (UINT_RANGE : Int)

/-- The state `fopen(path, "wb")` leaves: on success the file exists and is empty, on
the device as in the new stream. -/
def fopenWb (env : Env) (s : State) (path : Path) : State :=
  if env.opens path then
    { s with m_file := some { path := path, pos := 0 },
             files := Function.update s.files path (some []),
             disk := Function.update s.disk path (some []),
             calls := s.calls ++ [SysCall.fopen path true] }
  else
    { s with m_file := none,
             calls := s.calls ++ [SysCall.fopen path false] }

/-- Number of bytes the next `fwrite` of `n` bytes accepts: its return value. -/
def fwriteCount (env : Env) (s : State) (n : Nat) : Nat :=
  min (env.accepts s.calls.length n) n

/-- The state `fwrite(data, 1, size, m_file)` leaves on handle `h`: the accepted bytes are
in the stream at the cursor; they are in the file itself only if the stream spills. -/
def fwrite (env : Env) (s : State) (h : Handle) (data : List Byte) : State :=
  let written := fwriteCount env s data.length
  let content := writeAt ((s.files h.path).getD []) h.pos (data.take written)
  { s with m_file := some { h with pos := h.pos + written },
           files := Function.update s.files h.path (some content),
           disk := if env.spills s.calls.length
             then Function.update s.disk h.path (some content) else s.disk,
           calls := s.calls ++ [SysCall.fwrite h.path data.length written] }

/-- The state `fseek(m_file, offset, origin)` leaves on handle `h`
(`SEEK_SET = 0`, `SEEK_CUR = 1`, `SEEK_END = 2`; a bad origin or a negative target fails);
the runtime may write the stream out before it moves the cursor. -/
def fseek (env : Env) (s : State) (h : Handle) (offset : Nat) (origin : Int) : State :=
  let base : Option Int :=
    if origin = 0 then some 0
    else if origin = 1 then some (h.pos : Int)
    else if origin = 2 then some (((s.files h.path).getD []).length : Int)
    else none
  let s1 := { s with
    disk := if env.spills s.calls.length
      then Function.update s.disk h.path (s.files h.path) else s.disk,
    calls := s.calls ++ [SysCall.fseek h.path offset origin] }
  match base with
  | none => s1
  | some b =>
    if b + toLong offset < 0 then s1
    else { s1 with m_file := some { h with pos := (b + toLong offset).toNat } }

/-- The state `fflush(m_file)` leaves: when it succeeds the file holds what the stream
holds; when it fails the file is as it was.  The code does not look at the result. -/
def fflush (env : Env) (s : State) (h : Handle) : State :=
  { s with
    disk := if env.flushes s.calls.length
      then Function.update s.disk h.path (s.files h.path) else s.disk,
    calls := s.calls ++ [SysCall.fflush h.path] }

/-- The state `fclose(m_file)` leaves (the caller resets `m_file`): the stream is written
out when the call succeeds, and the file is as it was when it fails.  The code does not
look at the result. -/
def fclose (env : Env) (s : State) (h : Handle) : State :=
  { s with
    disk := if env.flushes s.calls.length
      then Function.update s.disk h.path (s.files h.path) else s.disk,
    calls := s.calls ++ [SysCall.fclose h.path] }

/-- The constructor `AsyncReplayWriter::AsyncReplayWriter()`, on file system `fs`. -/
def new (fs : Files) : State :=
  { m_file := none, m_filename := "", m_writeQueue := [],
    m_running := true, m_shouldExit := false,
    m_totalWrites := 0, m_totalBytesWritten := 0, m_peakQueueSize := 0,
    files := fs, disk := fs, calls := [], log := [LogMsg.started] }

/-- The function `AsyncReplayWriter::getPendingWrites`. -/
def getPendingWrites (s : State) : Nat :=
  s.m_writeQueue.length % UINT_RANGE

/-- The second `if` of the `CMD_WRITE_DATA` case: with a handle open, a non-NULL buffer and
a positive size, one `fwrite`, a warning when it is short, and the two counters. -/
def executeWrite (env : Env) (s : State) (cmd : ReplayWriteCommand) : State :=
  match s.m_file, cmd.data with
  | some h, some d =>
    if cmd.dataSize > 0 then
      let buffer := d.take cmd.dataSize
      let written := fwriteCount env s buffer.length
      let s1 := fwrite env s h buffer
      let s2 := if written ≠ cmd.dataSize
        then { s1 with log := s1.log ++ [LogMsg.shortWrite written cmd.dataSize] }
        else s1
      { s2 with m_totalWrites := (s2.m_totalWrites + 1) % UINT_RANGE,
                m_totalBytesWritten := (s2.m_totalBytesWritten + written) % UINT_RANGE }
    else s
  | _, _ => s

/-- The function `AsyncReplayWriter::executeCommand`. -/
def executeCommand (env : Env) (s : State) (cmd : ReplayWriteCommand) : State :=
  match cmd.type with
  | CommandType.CMD_WRITE_DATA =>
    if s.m_file = none ∧ s.m_filename ≠ "" then
      let s1 := fopenWb env s s.m_filename
      if s1.m_file = none then
        { s1 with log := s1.log ++ [LogMsg.openFailed s.m_filename] }
      else executeWrite env s1 cmd
    else executeWrite env s cmd
  | CommandType.CMD_SEEK =>
    match s.m_file with
    | some h => fseek env s h cmd.seekOffset cmd.seekOrigin
    | none => s
  | CommandType.CMD_FLUSH =>
    match s.m_file with
    | some h => fflush env s h
    | none => s
  | CommandType.CMD_CLOSE =>
    match s.m_file with
    | some h =>
      let s1 := fclose env (fflush env s h) h
      { s1 with m_file := none, log := s1.log ++ [LogMsg.fileClosed] }
    | none => s

/-- One iteration of the loop of `processQueue`: pop the front command under the lock and
execute it; nothing happens on an empty queue (the loop breaks). -/
def workerStep (env : Env) (s : State) : State :=
  match s.m_writeQueue with
  | [] => s
  | cmd :: rest => executeCommand env { s with m_writeQueue := rest } cmd

/-- The worker makes up to `k` iterations of the loop of `processQueue`. -/
def workerRun (env : Env) : Nat → State → State
  | 0, s => s
  | k + 1, s => workerRun env k (workerStep env s)

/-- The loop of `processQueue` with a bound on the number of iterations. -/
def processQueueLoop (env : Env) : Nat → State → State
  | 0, s => s
  | fuel + 1, s =>
    match s.m_writeQueue with
    | [] => s
    | cmd :: rest =>
      processQueueLoop env fuel (executeCommand env { s with m_writeQueue := rest } cmd)

/-- The function `AsyncReplayWriter::processQueue`, run with no enqueue in between: the
queue holds `length` commands, so `length` iterations pop them all. -/
def processQueue (env : Env) (s : State) : State :=
  processQueueLoop env s.m_writeQueue.length s

/-- The tail of `AsyncReplayWriter::writerThreadMain`, after the loop is left on
`m_shouldExit`: final drain, then flush and close the handle if one is open. -/
def writerThreadExit (env : Env) (s : State) : State :=
  let s1 := processQueue env s
  let s2 := match s1.m_file with
    | some h => { fclose env (fflush env s1 h) h with m_file := none }
    | none => s1
  { s2 with log := s2.log ++ [LogMsg.threadExiting] }

/-- The function `AsyncReplayWriter::writeData` for a queue limit `cap`; the buffer is the
list of its `size` bytes.  The debug assertion `data != NULL && size > 0` is not part of
the model: an empty buffer is queued like any other. -/
def writeDataCap (cap : Nat) (s : State) (data : List Byte) : State :=
  let cmd : ReplayWriteCommand :=
    { type := CommandType.CMD_WRITE_DATA, data := some data, dataSize := data.length }
  if s.m_writeQueue.length ≥ cap then
    { s with log := s.log ++ [LogMsg.queueFull cap] }
  else
    let s1 := { s with m_writeQueue := s.m_writeQueue ++ [cmd] }
    let queueSize := s1.m_writeQueue.length % UINT_RANGE
    if queueSize > s1.m_peakQueueSize then { s1 with m_peakQueueSize := queueSize } else s1

/-- The function `AsyncReplayWriter::writeData`. -/
def writeData (s : State) (data : List Byte) : State :=
  writeDataCap MAX_QUEUE_SIZE s data

/-- The function `AsyncReplayWriter::seek`. -/
def seek (s : State) (offset : Nat) (origin : Int) : State :=
  let cmd : ReplayWriteCommand :=
    { type := CommandType.CMD_SEEK, seekOffset := offset, seekOrigin := origin }
  { s with m_writeQueue := s.m_writeQueue ++ [cmd] }

/-- The function `AsyncReplayWriter::flush`. -/
def flush (s : State) : State :=
  let cmd : ReplayWriteCommand := { type := CommandType.CMD_FLUSH }
  { s with m_writeQueue := s.m_writeQueue ++ [cmd] }

/-- The Close command `closeFile` builds. -/
def closeCommand : ReplayWriteCommand :=
  { type := CommandType.CMD_CLOSE }

/-- First part of `closeFile`, up to `SetEvent`: the Close command is pushed. -/
def closeFileEnqueue (s : State) : State :=
  { s with m_writeQueue := s.m_writeQueue ++ [closeCommand] }

/-- The wait loop of `closeFile`: at most `polls` rounds; a round ends the wait when
`getPendingWrites()` is 0 and otherwise sleeps, during which the worker makes as many
iterations as the head of `progress` says. -/
def closeFileWait (env : Env) : Nat → List Nat → State → State
  | 0, _, s => s
  | polls + 1, progress, s =>
    if getPendingWrites s > 0 then
      closeFileWait env polls progress.tail (workerRun env (progress.headD 0) s)
    else s

/-- The function `AsyncReplayWriter::closeFile`; `progress` lists the worker iterations
made during each `Sleep(10)` of the wait (none listed means the worker did not run). -/
def closeFile (env : Env) (progress : List Nat) (s : State) : State :=
  if s.m_filename = "" then s
  else
    let s1 := closeFileEnqueue s
    let s2 := closeFileWait env 50 progress s1
    { s2 with m_filename := "" }

/-- The function `AsyncReplayWriter::openFile`; `progress` is passed to the `closeFile`
it may call. -/
def openFile (env : Env) (progress : List Nat) (s : State) (filename : Path) : State × Bool :=
  let s1 := if s.m_file ≠ none then closeFile env progress s else s
  ({ s1 with m_filename := filename, log := s1.log ++ [LogMsg.queuedOpen filename] }, true)

/-- The bytes of a file, empty when it does not exist. -/
def fileContent (fs : Files) (path : Path) : List Byte :=
  (fs path).getD []

/-- The WriteData command `writeData` builds for a buffer. -/
def writeCommand (data : List Byte) : ReplayWriteCommand :=
  { type := CommandType.CMD_WRITE_DATA, data := some data, dataSize := data.length }

/-- Number of writes dropped so far for a full queue. -/
def droppedWrites (s : State) : Nat :=
  (s.log.filter (fun m => match m with | LogMsg.queueFull _ => true | _ => false)).length

/-- Number of `fopen` calls made so far. -/
def openAttempts (s : State) : Nat :=
  (s.calls.filter (fun c => match c with | SysCall.fopen _ _ => true | _ => false)).length

/-- A step of a producer/worker interleaving. -/
inductive Action where
  | write (data : List Byte)
  | work

/-- Run an interleaving of `writeData` calls and worker iterations. -/
def runActions (env : Env) : State → List Action → State
  | s, [] => s
  | s, Action.write d :: rest => runActions env (writeData s d) rest
  | s, Action.work :: rest => runActions env (workerStep env s) rest

/-- The queue is below `MAX_QUEUE_SIZE` at every `writeData` call of the interleaving. -/
def neverFull (env : Env) : State → List Action → Bool
  | _, [] => true
  | s, Action.write d :: rest =>
    decide (s.m_writeQueue.length < MAX_QUEUE_SIZE) && neverFull env (writeData s d) rest
  | s, Action.work :: rest => neverFull env (workerStep env s) rest

/-- The buffers of the `writeData` calls of an interleaving, in call order. -/
def writesOf : List Action → List (List Byte)
  | [] => []
  | Action.write d :: rest => d :: writesOf rest
  | Action.work :: rest => writesOf rest

/-- Successive `writeData` calls with limit `cap`, with no worker step in between. -/
def writeAll (cap : Nat) (s : State) (bufs : List (List Byte)) : State :=
  bufs.foldl (writeDataCap cap) s

/-- An environment in which every path opens, every write is complete and stays in the
stream until an `fflush` or `fclose`, which always succeeds. -/
def goodEnv : Env :=
  { canOpen := fun _ => true, accepts := fun _ n => n,
    spills := fun _ => false, flushes := fun _ => true }

/-- An environment in which no path opens. -/
def noOpenEnv : Env :=
  { canOpen := fun _ => false, accepts := fun _ n => n,
    spills := fun _ => false, flushes := fun _ => true }

/-- An environment in which every path opens and no write takes a byte. -/
def stuckEnv : Env :=
  { canOpen := fun _ => true, accepts := fun _ _ => 0,
    spills := fun _ => false, flushes := fun _ => true }

/-- An environment in which every path opens and every write is complete, but no
`fflush` and no `fclose` gets the stream to the file (a full or failing device). -/
def lossyEnv : Env :=
  { canOpen := fun _ => true, accepts := fun _ n => n,
    spills := fun _ => false, flushes := fun _ => false }

/-- The empty file system. -/
def noFiles : Files := fun _ => none

/-- A step left the handle, every file (in the streams and on the device), the
library-call trace and the worker's two counters as they were. -/
def sameOutput (s s' : State) : Prop :=
  s'.m_file = s.m_file ∧ s'.files = s.files ∧ s'.calls = s.calls ∧
  s'.m_totalWrites = s.m_totalWrites ∧ s'.m_totalBytesWritten = s.m_totalBytesWritten ∧
  s'.disk = s.disk

/-- The Flush command `flush` builds. -/
def flushCommand : ReplayWriteCommand :=
  { type := CommandType.CMD_FLUSH }

/-- A writer whose queue holds `MAX_QUEUE_SIZE` Flush commands. -/
def fullQueueState : State :=
  { new noFiles with m_writeQueue := List.replicate MAX_QUEUE_SIZE flushCommand }

/-- A writer with target `a.rep` recorded and its handle open. -/
def openState : State :=
  { new noFiles with m_file := some { path := "a.rep", pos := 0 }, m_filename := "a.rep",
                     files := Function.update noFiles "a.rep" (some []),
                     disk := Function.update noFiles "a.rep" (some []) }

/-- The writer has put exactly the bytes `done` in the stream of `path` and touched no
other file of the file system `fs` it started on: either nothing yet, with no handle open,
or `done` is the whole content of the stream of `path` and the handle's cursor is at its
end. -/
def FileTracks (fs : Files) (path : Path) (done : List Byte) (s : State) : Prop :=
  (s.m_file = none ∧ s.files = fs ∧ done = []) ∨
  (done ≠ [] ∧ s.m_file = some { path := path, pos := done.length } ∧
    s.files path = some done ∧ ∀ p, p ≠ path → s.files p = fs p)

/-- Invariant of a run that writes to the single target `path`: the queue holds WriteData
commands for non-empty buffers followed by `rest`, and the bytes already in the stream
followed by the queued buffers are `total`. -/
def Tracks (fs : Files) (path : Path) (total : List Byte) (rest : List ReplayWriteCommand)
    (s : State) : Prop :=
  s.m_filename = path ∧
  ∃ (done : List Byte) (ds : List (List Byte)),
    s.m_writeQueue = ds.map writeCommand ++ rest ∧ (∀ d ∈ ds, d ≠ []) ∧
    FileTracks fs path done s ∧ done ++ ds.flatten = total

/-- Execute a list of commands one after the other, first to last. -/
def executeAll (env : Env) (s : State) (cmds : List ReplayWriteCommand) : State :=
  cmds.foldl (executeCommand env) s

/-- A WriteData command that carries a buffer of positive size, as `writeData` builds
them from a non-empty buffer. -/
def carriesData (cmd : ReplayWriteCommand) : Bool :=
  decide (cmd.type = CommandType.CMD_WRITE_DATA) && cmd.data.isSome && decide (0 < cmd.dataSize)

/-- Number of WriteData commands in a queue. -/
def writeCount (q : List ReplayWriteCommand) : Nat :=
  (q.filter (fun c => decide (c.type = CommandType.CMD_WRITE_DATA))).length

/-- Invariant of a run on a target that never opens: no handle, no file touched, both
counters zero, only WriteData commands queued, and every library call a failed `fopen` of
the target. -/
def Failing (fs : Files) (path : Path) (s : State) : Prop :=
  s.m_file = none ∧ s.m_filename = path ∧ (s.files = fs ∧ s.disk = fs) ∧
  s.m_totalWrites = 0 ∧ s.m_totalBytesWritten = 0 ∧
  (∀ c ∈ s.m_writeQueue, c.type = CommandType.CMD_WRITE_DATA) ∧
  (∀ c ∈ s.calls, c = SysCall.fopen path false)

/-- Writes accounted for: opened for, still queued, or dropped. -/
def served (s : State) : Nat :=
  openAttempts s + s.m_writeQueue.length + droppedWrites s

/-- A writer with target `r.rep` recorded and two writes queued. -/
def twoQueued : State :=
  writeAll MAX_QUEUE_SIZE (openFile goodEnv [] (new noFiles) "r.rep").1 [[65], [66]]

/-- One recording session on writer state `s`: `openFile(path)`, `writeData(data)`, then
`closeFile()`; the worker makes `k` iterations between the write and the close, and
`progress` iterations during the sleeps of the close. -/
def writeAndClose (env : Env) (progress : List Nat) (k : Nat) (s : State) (path : Path)
    (data : List Byte) : State :=
  closeFile env progress (workerRun env k (writeData (openFile env [] s path).1 data))

/-- None of the three statistics is smaller in `s'` than in `s`. -/
def countersGrow (s s' : State) : Prop :=
  s.m_totalWrites ≤ s'.m_totalWrites ∧ s.m_totalBytesWritten ≤ s'.m_totalBytesWritten ∧
  s.m_peakQueueSize ≤ s'.m_peakQueueSize

/-- A writer with its handle open whose write counter holds the largest `UnsignedInt`. -/
def lastCountState : State :=
  { openState with m_totalWrites := 4294967295 }

/-- What a statement does to `m_writeQueue` or to `m_queueLock`. -/
inductive QueueEvent where
  | enter
  | leave
  | push
  | pop
  | front
  | empty
  | size
  deriving DecidableEq, Repr

/-- Whether every queue access of a trace happens between `EnterCriticalSection` and
`LeaveCriticalSection`; the flag says whether the lock is held at the start. -/
def lockedAccess : Bool → List QueueEvent → Bool
  | _, [] => true
  | _, QueueEvent.enter :: rest => lockedAccess true rest
  | _, QueueEvent.leave :: rest => lockedAccess false rest
  | held, _ :: rest => held && lockedAccess held rest

/-- Lock and queue operations of `getPendingWrites`, in program order. -/
def getPendingWritesEvents : List QueueEvent :=
  [QueueEvent.enter, QueueEvent.size, QueueEvent.leave]

/-- Lock and queue operations of `writeData`; `full` is the outcome of the limit test. -/
def writeDataEvents (full : Bool) : List QueueEvent :=
  [QueueEvent.enter, QueueEvent.size] ++
    (if full then [QueueEvent.leave]
     else [QueueEvent.push, QueueEvent.size, QueueEvent.leave])

/-- Lock and queue operations of `seek`, and of `flush`. -/
def pushEvents : List QueueEvent :=
  [QueueEvent.enter, QueueEvent.push, QueueEvent.leave]

/-- Lock and queue operations of `closeFile`: nothing with an empty target name, else the
push and then `polls` calls of `getPendingWrites` from the wait loop. -/
def closeFileEvents (nameEmpty : Bool) (polls : Nat) : List QueueEvent :=
  if nameEmpty then []
  else pushEvents ++ (List.replicate polls getPendingWritesEvents).flatten

/-- Lock and queue operations of `openFile`, which touches the queue only through the
`closeFile` it calls when a handle is open. -/
def openFileEvents (handleOpen nameEmpty : Bool) (polls : Nat) : List QueueEvent :=
  if handleOpen then closeFileEvents nameEmpty polls else []

/-- Lock and queue operations of one `processQueue` call that pops `n` commands: `n`
iterations that find a command, then the one that finds the queue empty. -/
def processQueueEvents (n : Nat) : List QueueEvent :=
  (List.replicate n [QueueEvent.enter, QueueEvent.empty, QueueEvent.front, QueueEvent.pop,
    QueueEvent.leave]).flatten ++ [QueueEvent.enter, QueueEvent.empty, QueueEvent.leave]

/-- Lock and queue operations of one iteration of the loop of `writerThreadMain`:
`signalled` says whether the wait returned `WAIT_OBJECT_0`, `pending` how many commands
are queued.  The `||` reads `m_writeQueue.empty()` only when the wait was not signalled. -/
def wakeEvents (signalled : Bool) (pending : Nat) : List QueueEvent :=
  if signalled then processQueueEvents pending
  else QueueEvent.empty :: (if pending > 0 then processQueueEvents pending else [])

/-- Lock and queue operations of `writerThreadMain`: its loop iterations, then the final
`processQueue` that pops `last` commands. -/
def writerThreadMainEvents (wakes : List (Bool × Nat)) (last : Nat) : List QueueEvent :=
  (wakes.map (fun w => wakeEvents w.1 w.2)).flatten ++ processQueueEvents last

/-- Lock and queue operations of the clean-up loop of the destructor on `n` left-over
commands. -/
def destructorEvents (n : Nat) : List QueueEvent :=
  QueueEvent.enter ::
    ((List.replicate n [QueueEvent.empty, QueueEvent.front, QueueEvent.pop]).flatten ++
      [QueueEvent.empty, QueueEvent.leave])

/-- The worker is set on `path`: it is the recorded target, and the handle, if one is
open, is on it. -/
def Aims (path : Path) (s : State) : Prop :=
  s.m_filename = path ∧ ∀ h, s.m_file = some h → h.path = path

/-- The writer after `openFile(path)` on a fresh writer, an interleaving of `writeData`
calls and worker iterations, and a drain of the queue. -/
def drainedWrites (env : Env) (fs : Files) (path : Path) (acts : List Action) : State :=
  processQueue env (runActions env (openFile env [] (new fs) path).1 acts)

/-- The Seek command `seek` builds. -/
def seekCommand (offset : Nat) (origin : Int) : ReplayWriteCommand :=
  { type := CommandType.CMD_SEEK, seekOffset := offset, seekOrigin := origin }

/-- A writer with target `a.rep` recorded, its handle open, and a Seek and a Flush command
queued. -/
def busyState : State :=
  flush (seek openState 4 0)

/-- The writer after `openFile("a.rep")`, `writeData`, one worker iteration (which opens the
handle), a `closeFile()` whose wait runs out with the worker idle, and `flush()`: the handle
is still open on `a.rep`, the target name is cleared, and the queue holds the Close of that
`closeFile` followed by the Flush. -/
def staleState : State :=
  flush (closeFile goodEnv [] (workerStep goodEnv
    (writeData (openFile goodEnv [] (new noFiles) "a.rep").1 [120])))

end AsyncReplayWriter

/-!
AIThrottleManager: the update-frequency scheduler

Embedding of `GameLogic/AIThrottleManager.h` and `GameLogic/AIThrottleManager.cpp`.

* `Int` is a 32-bit signed integer: the result of an addition, subtraction or
  multiplication is reduced with `wrapInt`, division is the truncating `Int.tdiv`, and a
  conversion to `UnsignedInt` is `toUnsigned`.
* `calculatePriority` reads the object, the camera and the game clock, none of which is
  part of these sources; the priority it returns for an AI is carried by the AI record.
* `TheGlobalData` is the argument `globalData`: `none` for a null pointer, else the
  value of `m_enableAIThrottling`.  `TheGameLogic->getFrame()` is the argument of `update`.
* The `Real` fields are kept as exact rationals; `savedPercentage` feeds no decision.
-/

namespace AIThrottleManager

/-- The enum `AIUpdatePriority`. -/
inductive AIUpdatePriority where
  | AI_PRIORITY_CRITICAL
  | AI_PRIORITY_HIGH
  | AI_PRIORITY_MEDIUM
  | AI_PRIORITY_LOW
  | AI_PRIORITY_VERY_LOW
  deriving DecidableEq, Repr

/-- A value reduced to the range of a 32-bit signed `Int`. -/
def wrapInt (x : Int) : Int :=
  (x + 2 ^ 31) % 2 ^ 32 - 2 ^ 31

/-- An `Int` converted to `UnsignedInt`. -/
def toUnsigned (x : Int) : Nat :=
  (x % 2 ^ 32).toNat

/-- The value fits a 32-bit signed `Int`. -/
def inInt32 (x : Int) : Prop :=
  -(2 ^ 31) ≤ x ∧ x < 2 ^ 31

/-- The struct `AIThrottleConfig`. -/
structure AIThrottleConfig where
  enabled : Bool
  criticalDistanceSq : Rat
  highDistanceSq : Rat
  mediumDistanceSq : Rat
  lowDistanceSq : Rat
  updateInterval : AIUpdatePriority → Int
  adaptiveThrottling : Bool
  targetFrameTimeMs : Int
  maxThrottleMultiplier : Int

/-- The constructor `AIThrottleConfig::AIThrottleConfig()`: the default configuration. -/
def AIThrottleConfig.default : AIThrottleConfig :=
  { enabled := true,
    criticalDistanceSq := 400,
    highDistanceSq := 1600,
    mediumDistanceSq := 6400,
    lowDistanceSq := 25600,
    updateInterval := fun p =>
      match p with
      | AIUpdatePriority.AI_PRIORITY_CRITICAL => 1
      | AIUpdatePriority.AI_PRIORITY_HIGH => 2
      | AIUpdatePriority.AI_PRIORITY_MEDIUM => 5
      | AIUpdatePriority.AI_PRIORITY_LOW => 10
      | AIUpdatePriority.AI_PRIORITY_VERY_LOW => 20,
    adaptiveThrottling := true,
    targetFrameTimeMs := 30,
    maxThrottleMultiplier := 3 }

/-- The struct `AIThrottleManager::Stats`. -/
structure Stats where
  totalAIs : Int
  criticalAIs : Int
  highAIs : Int
  mediumAIs : Int
  lowAIs : Int
  veryLowAIs : Int
  updatesThisFrame : Int
  updatesSaved : Int
  savedPercentage : Rat

/-- What `shouldUpdateThisFrame` reads of an `Object`: its id. -/
structure GameObject where
  id : Int

/-- What `shouldUpdateThisFrame` reads of an `AIUpdateInterface`: its object, null or not,
and the priority `calculatePriority` returns for it. -/
structure AIUpdateInterface where
  object : Option GameObject
  priority : AIUpdatePriority

/-- The members of `AIThrottleManager`. -/
structure State where
  m_config : AIThrottleConfig
  m_currentFrame : Nat
  m_stats : Stats
  m_recentFrameTimes : List Int
  m_frameTimeIndex : Int
  m_currentThrottleMultiplier : Int

/-- All statistics at zero, as the constructor and `reset` set them. -/
def Stats.zero : Stats :=
  { totalAIs := 0, criticalAIs := 0, highAIs := 0, mediumAIs := 0, lowAIs := 0,
    veryLowAIs := 0, updatesThisFrame := 0, updatesSaved := 0, savedPercentage := 0 }

/-- The function `AIThrottleManager::reset`. -/
def reset (s : State) : State :=
  { s with m_currentFrame := 0, m_frameTimeIndex := 0, m_currentThrottleMultiplier := 1,
           m_stats := Stats.zero }

/-- The function `AIThrottleManager::init`. -/
def init (s : State) (config : AIThrottleConfig) : State :=
  reset { s with m_config := config }

/-- The constructor `AIThrottleManager::AIThrottleManager()`. -/
def new : State :=
  init
    { m_config := AIThrottleConfig.default, m_currentFrame := 0, m_stats := Stats.zero,
      m_recentFrameTimes := List.replicate 30 30, m_frameTimeIndex := 0,
      m_currentThrottleMultiplier := 1 }
    AIThrottleConfig.default

/-- The function `AIThrottleManager::calculateAdaptiveMultiplier`. -/
def calculateAdaptiveMultiplier (s : State) : Int :=
  if !s.m_config.adaptiveThrottling then 1
  else
    let totalFrameTime : Int :=
      (List.range 30).foldl (fun acc i => wrapInt (acc + s.m_recentFrameTimes.getD i 0)) 0
    let avgFrameTime := Int.tdiv totalFrameTime 30
    if avgFrameTime ≤ s.m_config.targetFrameTimeMs then 1
    else
      let overTarget := wrapInt (avgFrameTime - s.m_config.targetFrameTimeMs)
      let multiplier := wrapInt (1 + Int.tdiv overTarget 10)
      if multiplier > s.m_config.maxThrottleMultiplier then s.m_config.maxThrottleMultiplier
      else multiplier

/-- The function `AIThrottleManager::update`; `frame` is `TheGameLogic->getFrame()`. -/
def update (s : State) (frame : Nat) : State :=
  { s with
    m_currentFrame := frame % 2 ^ 32,
    m_currentThrottleMultiplier :=
      if s.m_config.adaptiveThrottling then calculateAdaptiveMultiplier s else 1,
    m_stats := { s.m_stats with updatesThisFrame := 0, totalAIs := 0, criticalAIs := 0,
                                highAIs := 0, mediumAIs := 0, lowAIs := 0, veryLowAIs := 0 } }

/-- The interval `shouldUpdateThisFrame` uses for a priority: the configured one, times
the adaptive multiplier unless the priority is CRITICAL or the multiplier is at most 1,
and at least 1. -/
def effectiveInterval (config : AIThrottleConfig) (priority : AIUpdatePriority)
    (multiplier : Int) : Int :=
  let interval := config.updateInterval priority
  let interval :=
    if priority ≠ AIUpdatePriority.AI_PRIORITY_CRITICAL ∧ multiplier > 1
    then wrapInt (interval * multiplier) else interval
  if interval < 1 then 1 else interval

/-- The counter of a priority level, increased by one. -/
def countPriority (st : Stats) (priority : AIUpdatePriority) : Stats :=
  match priority with
  | AIUpdatePriority.AI_PRIORITY_CRITICAL => { st with criticalAIs := wrapInt (st.criticalAIs + 1) }
  | AIUpdatePriority.AI_PRIORITY_HIGH => { st with highAIs := wrapInt (st.highAIs + 1) }
  | AIUpdatePriority.AI_PRIORITY_MEDIUM => { st with mediumAIs := wrapInt (st.mediumAIs + 1) }
  | AIUpdatePriority.AI_PRIORITY_LOW => { st with lowAIs := wrapInt (st.lowAIs + 1) }
  | AIUpdatePriority.AI_PRIORITY_VERY_LOW => { st with veryLowAIs := wrapInt (st.veryLowAIs + 1) }

/-- The function `AIThrottleManager::shouldUpdateThisFrame`: the state it leaves and the
value it returns. -/
def shouldUpdateThisFrame (globalData : Option Bool) (s : State)
    (ai : Option AIUpdateInterface) : State × Bool :=
  if globalData = some false then (s, true)
  else if !s.m_config.enabled then (s, true)
  else
    match ai with
    | none => (s, false)
    | some a =>
      match a.object with
      | none => (s, false)
      | some obj =>
        let priority := a.priority
        let st1 := countPriority { s.m_stats with totalAIs := wrapInt (s.m_stats.totalAIs + 1) }
          priority
        let interval := effectiveInterval s.m_config priority s.m_currentThrottleMultiplier
        let stagger := toUnsigned (Int.tmod obj.id interval)
        let shouldUpdate := decide (s.m_currentFrame % toUnsigned interval = stagger)
        let st2 :=
          if shouldUpdate then { st1 with updatesThisFrame := wrapInt (st1.updatesThisFrame + 1) }
          else { st1 with updatesSaved := wrapInt (st1.updatesSaved + 1) }
        let st3 :=
          if st2.totalAIs > 0
          then { st2 with savedPercentage := (st2.updatesSaved : Rat) / (st2.totalAIs : Rat) * 100 }
          else st2
        ({ s with m_stats := st3 }, shouldUpdate)

/-- An AI on object 7 whose priority is CRITICAL. -/
def criticalAI : AIUpdateInterface :=
  { object := some { id := 7 }, priority := AIUpdatePriority.AI_PRIORITY_CRITICAL }

/-- The manager as constructed, with the frame counter at game frame `t`. -/
def atFrame (t : Nat) : State :=
  { new with m_currentFrame := t % 2 ^ 32 }

end AIThrottleManager

namespace AsyncReplayWriter

/-! ## Frame lemmas: what a step leaves alone -/

theorem executeWrite_queue (env : Env) (s : State) (cmd : ReplayWriteCommand) :
    (executeWrite env s cmd).m_writeQueue = s.m_writeQueue ∧
    (executeWrite env s cmd).m_filename = s.m_filename ∧
    (executeWrite env s cmd).m_peakQueueSize = s.m_peakQueueSize := by
  unfold executeWrite
  split
  · split
    · dsimp only
      split <;> simp [fwrite]
    · simp
  · simp

theorem executeCommand_queue (env : Env) (s : State) (cmd : ReplayWriteCommand) :
    (executeCommand env s cmd).m_writeQueue = s.m_writeQueue ∧
    (executeCommand env s cmd).m_filename = s.m_filename ∧
    (executeCommand env s cmd).m_peakQueueSize = s.m_peakQueueSize := by
  unfold executeCommand
  split
  · split
    · dsimp only
      split
      · simp [fopenWb]; split <;> simp
      · have h := executeWrite_queue env (fopenWb env s s.m_filename) cmd
        have h2 : (fopenWb env s s.m_filename).m_writeQueue = s.m_writeQueue ∧
            (fopenWb env s s.m_filename).m_filename = s.m_filename ∧
            (fopenWb env s s.m_filename).m_peakQueueSize = s.m_peakQueueSize := by
          unfold fopenWb; split <;> simp
        simp only [h, h2, and_self]
    · exact executeWrite_queue env s cmd
  · split
    · unfold fseek; simp only; split
      · simp
      · split <;> simp
    · simp
  · split <;> simp [fflush]
  · split <;> simp [fflush, fclose]

theorem workerStep_queue (env : Env) (s : State) :
    (workerStep env s).m_writeQueue = s.m_writeQueue.tail ∧
    (workerStep env s).m_filename = s.m_filename ∧
    (workerStep env s).m_peakQueueSize = s.m_peakQueueSize := by
  unfold workerStep
  split
  · rename_i h; simp [h]
  · rename_i cmd rest h
    have := executeCommand_queue env { s with m_writeQueue := rest } cmd
    simp [this, h]

theorem workerStep_nil (env : Env) (s : State) (h : s.m_writeQueue = []) :
    workerStep env s = s := by
  unfold workerStep; simp [h]

theorem workerRun_nil (env : Env) (k : Nat) (s : State) (h : s.m_writeQueue = []) :
    workerRun env k s = s := by
  induction k with
  | zero => rfl
  | succ k ih => simp [workerRun, workerStep_nil env s h, ih]

theorem workerRun_queue (env : Env) (k : Nat) (s : State) :
    (workerRun env k s).m_writeQueue = s.m_writeQueue.drop k ∧
    (workerRun env k s).m_filename = s.m_filename ∧
    (workerRun env k s).m_peakQueueSize = s.m_peakQueueSize := by
  induction k generalizing s with
  | zero => simp [workerRun]
  | succ k ih =>
    have h1 := workerStep_queue env s
    have h2 := ih (workerStep env s)
    simp only [workerRun, h2, h1, and_true]
    cases s.m_writeQueue <;> simp

theorem workerRun_add (env : Env) (a b : Nat) (s : State) :
    workerRun env b (workerRun env a s) = workerRun env (a + b) s := by
  induction a generalizing s with
  | zero => simp [workerRun]
  | succ a ih => simp only [workerRun, Nat.succ_add, Nat.add_eq, ih]

theorem processQueueLoop_eq_workerRun (env : Env) (n : Nat) (s : State) :
    processQueueLoop env n s = workerRun env n s := by
  induction n generalizing s with
  | zero => rfl
  | succ n ih =>
    unfold processQueueLoop workerRun
    split
    · rename_i h; rw [workerStep_nil env s h, workerRun_nil env n s h]
    · rename_i cmd rest h
      rw [ih]; simp [workerStep, h]

theorem processQueue_eq_workerRun (env : Env) (s : State) :
    processQueue env s = workerRun env s.m_writeQueue.length s :=
  processQueueLoop_eq_workerRun env _ s

theorem processQueue_queue (env : Env) (s : State) :
    (processQueue env s).m_writeQueue = [] := by
  rw [processQueue_eq_workerRun, (workerRun_queue env _ s).1]; simp

theorem closeFileWait_noProgress (env : Env) (n : Nat) (s : State) :
    closeFileWait env n [] s = s := by
  induction n generalizing s with
  | zero => rfl
  | succ n ih => simp [closeFileWait, workerRun, ih]

theorem closeFileWait_eq_workerRun (env : Env) (n : Nat) (progress : List Nat) (s : State) :
    ∃ k, closeFileWait env n progress s = workerRun env k s := by
  induction n generalizing s progress with
  | zero => exact ⟨0, rfl⟩
  | succ n ih =>
    unfold closeFileWait
    split
    · obtain ⟨k, hk⟩ := ih progress.tail (workerRun env (progress.headD 0) s)
      exact ⟨progress.headD 0 + k, by rw [hk, workerRun_add]⟩
    · exact ⟨0, rfl⟩

/-! ## Executing one WriteData command -/

theorem writeAt_end (content data : List Byte) :
    writeAt content content.length data = content ++ data := by
  unfold writeAt
  split
  · rename_i h; simp [h]
  · simp

theorem fwriteCount_complete (env : Env) (hc : env.complete) (s : State) (n : Nat) :
    fwriteCount env s n = n := by
  simp [fwriteCount, hc s.calls.length n]

theorem opens_ne_empty (env : Env) (path : Path) (h : env.opens path = true) : path ≠ "" := by
  intro hp
  simp [Env.opens, hp] at h

theorem executeWrite_open (env : Env) (s : State) (h : Handle) (d : List Byte)
    (hfile : s.m_file = some h) (hd : d ≠ []) :
    executeWrite env s (writeCommand d) =
      { s with
        m_file := some { h with pos := h.pos + fwriteCount env s d.length },
        files := Function.update s.files h.path
          (some (writeAt (fileContent s.files h.path) h.pos
            (d.take (fwriteCount env s d.length)))),
        disk := if env.spills s.calls.length
          then Function.update s.disk h.path
            (some (writeAt (fileContent s.files h.path) h.pos
              (d.take (fwriteCount env s d.length))))
          else s.disk,
        calls := s.calls ++ [SysCall.fwrite h.path d.length (fwriteCount env s d.length)],
        log := if fwriteCount env s d.length ≠ d.length
          then s.log ++ [LogMsg.shortWrite (fwriteCount env s d.length) d.length]
          else s.log,
        m_totalWrites := (s.m_totalWrites + 1) % UINT_RANGE,
        m_totalBytesWritten :=
          (s.m_totalBytesWritten + fwriteCount env s d.length) % UINT_RANGE } := by
  have hlen : 0 < d.length := List.length_pos.mpr hd
  unfold executeWrite
  simp only [writeCommand, hfile, List.take_length, gt_iff_lt, hlen, if_true]
  split <;> simp_all [fwrite, fileContent]

theorem executeCommand_write_open (env : Env) (s : State) (h : Handle) (d : List Byte)
    (hfile : s.m_file = some h) :
    executeCommand env s (writeCommand d) = executeWrite env s (writeCommand d) := by
  simp [executeCommand, writeCommand, hfile]

theorem executeCommand_write_lazy (env : Env) (s : State) (d : List Byte)
    (hfile : s.m_file = none) (hname : s.m_filename ≠ "") (hopen : env.opens s.m_filename = true) :
    executeCommand env s (writeCommand d) =
      executeWrite env
        { s with m_file := some { path := s.m_filename, pos := 0 },
                 files := Function.update s.files s.m_filename (some []),
                 disk := Function.update s.disk s.m_filename (some []),
                 calls := s.calls ++ [SysCall.fopen s.m_filename true] }
        (writeCommand d) := by
  simp [executeCommand, writeCommand, hfile, hname, fopenWb, hopen]

theorem executeCommand_write_fail (env : Env) (s : State) (cmd : ReplayWriteCommand)
    (htype : cmd.type = CommandType.CMD_WRITE_DATA)
    (hfile : s.m_file = none) (hname : s.m_filename ≠ "")
    (hopen : env.opens s.m_filename = false) :
    executeCommand env s cmd =
      { s with calls := s.calls ++ [SysCall.fopen s.m_filename false],
               log := s.log ++ [LogMsg.openFailed s.m_filename] } := by
  simp [executeCommand, htype, hfile, hname, fopenWb, hopen]

theorem executeCommand_write_tracks (env : Env) (fs : Files) (path : Path)
    (hopen : env.opens path = true) (hc : env.complete) (s : State) (done d : List Byte)
    (hd : d ≠ []) (hname : s.m_filename = path) (hfile : FileTracks fs path done s) :
    (executeCommand env s (writeCommand d)).m_filename = path ∧
    (executeCommand env s (writeCommand d)).m_writeQueue = s.m_writeQueue ∧
    FileTracks fs path (done ++ d) (executeCommand env s (writeCommand d)) := by
  subst hname
  have hq := executeCommand_queue env s (writeCommand d)
  refine ⟨hq.2.1, hq.1, ?_⟩
  have hpath : s.m_filename ≠ "" := opens_ne_empty env _ hopen
  right
  rcases hfile with ⟨hnone, hfs, hdone⟩ | ⟨hne, hsome, hcontent, hother⟩
  · subst hdone
    rw [executeCommand_write_lazy env s d hnone hpath hopen]
    rw [executeWrite_open env _ { path := s.m_filename, pos := 0 } d rfl hd]
    simp only [fwriteCount_complete env hc, List.take_length, List.nil_append]
    refine ⟨hd, by simp, ?_, ?_⟩
    · simp only [fileContent, Function.update_same, Option.getD_some]
      exact congrArg some (writeAt_end [] d)
    · intro p hp
      simp [Function.update_noteq hp, hfs]
  · rw [executeCommand_write_open env s _ d hsome, executeWrite_open env s _ d hsome hd]
    simp only [fwriteCount_complete env hc, List.take_length]
    refine ⟨by simp [hd], by simp, ?_, ?_⟩
    · simp only [fileContent, hcontent, Function.update_same, Option.getD_some]
      exact congrArg some (writeAt_end done d)
    · intro p hp
      simp [Function.update_noteq hp, hother p hp]

/-! ## Runs that write to a single target -/

theorem fileTracks_congr (fs : Files) (path : Path) (done : List Byte) (s s' : State)
    (hfile : s'.m_file = s.m_file) (hfiles : s'.files = s.files)
    (h : FileTracks fs path done s) : FileTracks fs path done s' := by
  unfold FileTracks at *
  rw [hfile, hfiles]
  exact h

theorem tracks_workerStep_write (env : Env) (fs : Files) (path : Path)
    (hopen : env.opens path = true) (hc : env.complete) (s : State)
    (done d : List Byte) (ds : List (List Byte)) (rest : List ReplayWriteCommand)
    (hname : s.m_filename = path)
    (hq : s.m_writeQueue = (d :: ds).map writeCommand ++ rest) (hd : d ≠ [])
    (hfile : FileTracks fs path done s) :
    (workerStep env s).m_filename = path ∧
    (workerStep env s).m_writeQueue = ds.map writeCommand ++ rest ∧
    FileTracks fs path (done ++ d) (workerStep env s) := by
  have hstep : workerStep env s =
      executeCommand env { s with m_writeQueue := ds.map writeCommand ++ rest }
        (writeCommand d) := by
    simp [workerStep, hq]
  rw [hstep]
  exact executeCommand_write_tracks env fs path hopen hc _ done d hd hname
    (fileTracks_congr fs path done s _ rfl rfl hfile)

theorem tracks_workerStep (env : Env) (fs : Files) (path : Path)
    (hopen : env.opens path = true) (hc : env.complete) (total : List Byte) (s : State)
    (h : Tracks fs path total [] s) : Tracks fs path total [] (workerStep env s) := by
  obtain ⟨hname, done, ds, hq, hds, hfile, htotal⟩ := h
  cases ds with
  | nil =>
    rw [workerStep_nil env s (by simpa using hq)]
    exact ⟨hname, done, [], hq, hds, hfile, htotal⟩
  | cons d ds =>
    have hd : d ≠ [] := hds d (List.mem_cons_self d ds)
    obtain ⟨h1, h2, h3⟩ :=
      tracks_workerStep_write env fs path hopen hc s done d ds [] hname hq hd hfile
    exact ⟨h1, done ++ d, ds, h2, fun x hx => hds x (List.mem_cons_of_mem d hx), h3,
      by simpa using htotal⟩

theorem tracks_workerRun (env : Env) (fs : Files) (path : Path)
    (hopen : env.opens path = true) (hc : env.complete) (total : List Byte) (k : Nat)
    (s : State) (h : Tracks fs path total [] s) :
    Tracks fs path total [] (workerRun env k s) := by
  induction k generalizing s with
  | zero => exact h
  | succ k ih => exact ih _ (tracks_workerStep env fs path hopen hc total s h)

theorem tracks_drain_writes (env : Env) (fs : Files) (path : Path)
    (hopen : env.opens path = true) (hc : env.complete) (ds : List (List Byte)) :
    ∀ (s : State) (done : List Byte) (rest : List ReplayWriteCommand),
      s.m_filename = path → s.m_writeQueue = ds.map writeCommand ++ rest →
      (∀ d ∈ ds, d ≠ []) → FileTracks fs path done s →
      (workerRun env ds.length s).m_filename = path ∧
      (workerRun env ds.length s).m_writeQueue = rest ∧
      FileTracks fs path (done ++ ds.flatten) (workerRun env ds.length s) := by
  induction ds with
  | nil =>
    intro s done rest hname hq _ hfile
    exact ⟨hname, by simpa using hq, by simpa [workerRun] using hfile⟩
  | cons d ds ih =>
    intro s done rest hname hq hds hfile
    have hd : d ≠ [] := hds d (List.mem_cons_self d ds)
    obtain ⟨h1, h2, h3⟩ :=
      tracks_workerStep_write env fs path hopen hc s done d ds rest hname hq hd hfile
    have := ih (workerStep env s) (done ++ d) rest h1 h2
      (fun x hx => hds x (List.mem_cons_of_mem d hx)) h3
    simpa [workerRun, List.append_assoc] using this

theorem tracks_writeDataCap (cap : Nat) (fs : Files) (path : Path) (total : List Byte)
    (s : State) (d : List Byte) (hroom : s.m_writeQueue.length < cap) (hd : d ≠ [])
    (h : Tracks fs path total [] s) :
    Tracks fs path (total ++ d) [] (writeDataCap cap s d) := by
  obtain ⟨hname, done, ds, hq, hds, hfile, htotal⟩ := h
  have hpush : (writeDataCap cap s d).m_writeQueue = s.m_writeQueue ++ [writeCommand d] ∧
      (writeDataCap cap s d).m_filename = s.m_filename ∧
      (writeDataCap cap s d).m_file = s.m_file ∧
      (writeDataCap cap s d).files = s.files := by
    unfold writeDataCap
    rw [if_neg (by omega)]
    dsimp only
    split <;> simp [writeCommand]
  refine ⟨by rw [hpush.2.1, hname], done, ds ++ [d], ?_, ?_, ?_, ?_⟩
  · rw [hpush.1, hq]; simp
  · intro x hx
    rcases List.mem_append.mp hx with hx | hx
    · exact hds x hx
    · simpa [List.mem_singleton.mp hx] using hd
  · exact fileTracks_congr fs path done s _ hpush.2.2.1 hpush.2.2.2 hfile
  · simp [← htotal, List.append_assoc]

theorem tracks_runActions (env : Env) (fs : Files) (path : Path)
    (hopen : env.opens path = true) (hc : env.complete) (acts : List Action) :
    ∀ (s : State) (total : List Byte), Tracks fs path total [] s →
      (∀ d ∈ writesOf acts, d ≠ []) → neverFull env s acts = true →
      Tracks fs path (total ++ (writesOf acts).flatten) [] (runActions env s acts) := by
  induction acts with
  | nil =>
    intro s total h _ _
    simpa [writesOf, runActions] using h
  | cons a acts ih =>
    intro s total h hne hroom
    cases a with
    | write d =>
      have hd : d ≠ [] := hne d (by simp [writesOf])
      have hroom : s.m_writeQueue.length < MAX_QUEUE_SIZE ∧
          neverFull env (writeData s d) acts = true := by
        simpa [neverFull] using hroom
      have h1 := tracks_writeDataCap MAX_QUEUE_SIZE fs path total s d hroom.1 hd h
      have := ih (writeData s d) (total ++ d) h1
        (fun x hx => hne x (by simp [writesOf, hx])) hroom.2
      simpa [writesOf, runActions, List.append_assoc] using this
    | work =>
      have h1 := tracks_workerStep env fs path hopen hc total s h
      have := ih (workerStep env s) total h1 hne hroom
      simpa [writesOf, runActions] using this

theorem tracks_openFile_new (env : Env) (progress : List Nat) (fs : Files) (path : Path) :
    Tracks fs path [] [] (openFile env progress (new fs) path).1 :=
  ⟨rfl, [], [], rfl, by simp, Or.inl ⟨rfl, rfl, rfl⟩, rfl⟩

theorem tracks_final (fs : Files) (path : Path) (total : List Byte) (s : State)
    (h : Tracks fs path total [] s) (hq : s.m_writeQueue = []) :
    s.files path = (if total = [] then fs path else some total) ∧
    (∀ p, p ≠ path → s.files p = fs p) := by
  obtain ⟨_, done, ds, hds, _, hfile, htotal⟩ := h
  have hnil : ds = [] := by
    rw [hq] at hds
    simpa using hds.symm
  subst hnil
  simp only [List.flatten_nil, List.append_nil] at htotal
  subst htotal
  rcases hfile with ⟨_, hfs, hdone⟩ | ⟨hne, _, hcontent, hother⟩
  · simp [hfs, hdone]
  · simp [hne, hcontent]
    exact hother

theorem flatten_eq_nil_of_nonempty (bufs : List (List Byte)) (hne : ∀ d ∈ bufs, d ≠ []) :
    bufs.flatten = [] ↔ bufs = [] := by
  constructor
  · intro h
    cases bufs with
    | nil => rfl
    | cons d ds =>
      have := List.flatten_eq_nil_iff.mp h d (List.mem_cons_self d ds)
      exact absurd this (hne d (List.mem_cons_self d ds))
  · intro h
    simp [h]

/-! ## Writes issued with no worker step in between -/

theorem writeDataCap_full (cap : Nat) (s : State) (d : List Byte)
    (h : cap ≤ s.m_writeQueue.length) :
    writeDataCap cap s d = { s with log := s.log ++ [LogMsg.queueFull cap] } := by
  simp [writeDataCap, h]

theorem writeDataCap_room (cap : Nat) (s : State) (d : List Byte)
    (h : s.m_writeQueue.length < cap) (hcap : cap < UINT_RANGE)
    (hpeak : s.m_peakQueueSize = s.m_writeQueue.length) :
    writeDataCap cap s d =
      { s with m_writeQueue := s.m_writeQueue ++ [writeCommand d],
               m_peakQueueSize := s.m_writeQueue.length + 1 } := by
  have hmod : (s.m_writeQueue.length + 1) % UINT_RANGE = s.m_writeQueue.length + 1 :=
    Nat.mod_eq_of_lt (by omega)
  unfold writeDataCap
  rw [if_neg (by omega)]
  simp [hmod, hpeak, writeCommand]

theorem writeAll_snoc (cap : Nat) (s : State) (bufs : List (List Byte)) (d : List Byte) :
    writeAll cap s (bufs ++ [d]) = writeDataCap cap (writeAll cap s bufs) d := by
  simp [writeAll, List.foldl_append]

theorem writeAll_eq (cap : Nat) (hcap : cap < UINT_RANGE) (s : State)
    (hq : s.m_writeQueue = []) (hpeak : s.m_peakQueueSize = 0) (bufs : List (List Byte)) :
    writeAll cap s bufs =
      { s with m_writeQueue := (bufs.take cap).map writeCommand,
               m_peakQueueSize := min bufs.length cap,
               log := s.log ++ List.replicate (bufs.length - cap) (LogMsg.queueFull cap) } := by
  induction bufs using List.reverseRecOn with
  | nil =>
    cases s
    simp only at hq hpeak
    simp [writeAll, hq, hpeak]
  | append_singleton bufs d ih =>
    rw [writeAll_snoc, ih]
    by_cases hfull : cap ≤ bufs.length
    · rw [writeDataCap_full cap _ d (by simp [hfull])]
      have h1 : (bufs ++ [d]).take cap = bufs.take cap := by
        rw [List.take_append_of_le_length hfull]
      have h2 : (bufs ++ [d]).length - cap = (bufs.length - cap) + 1 := by
        simp; omega
      have h3 : min (bufs ++ [d]).length cap = min bufs.length cap := by
        simp; omega
      rw [h1, h2, h3, List.replicate_succ']
      simp
    · have hlt : bufs.length < cap := by omega
      rw [writeDataCap_room cap _ d (by simp; omega) hcap (by simp; omega)]
      have h1 : (bufs ++ [d]).take cap = bufs.take cap ++ [d] := by
        rw [List.take_of_length_le (by simp; omega), List.take_of_length_le (by omega)]
      have h2 : (bufs ++ [d]).length - cap = 0 := by
        simp; omega
      have h2' : bufs.length - cap = 0 := by omega
      have h3 : min (bufs ++ [d]).length cap = bufs.length + 1 := by
        simp; omega
      have h4 : min bufs.length cap = bufs.length := by omega
      rw [h1, h2, h3]
      simp [h2', h4, Nat.le_of_lt hlt]

theorem flush_iterate_queue (n : Nat) (s : State) :
    (flush^[n] s).m_writeQueue = s.m_writeQueue ++ List.replicate n flushCommand := by
  induction n with
  | zero => simp
  | succ n ih =>
    rw [Function.iterate_succ_apply', List.replicate_succ', ← List.append_assoc, ← ih]
    rfl

/-! ## The drain executes the queue in order -/

theorem executeWrite_setQueue (env : Env) (s : State) (cmd : ReplayWriteCommand)
    (q : List ReplayWriteCommand) :
    executeWrite env { s with m_writeQueue := q } cmd =
      { executeWrite env s cmd with m_writeQueue := q } := by
  unfold executeWrite
  dsimp only
  split
  · rename_i h d _ _
    split
    · have hcnt : fwriteCount env { s with m_writeQueue := q } (List.take cmd.dataSize d).length =
          fwriteCount env s (List.take cmd.dataSize d).length := rfl
      rw [hcnt]
      by_cases hw : fwriteCount env s (List.take cmd.dataSize d).length = cmd.dataSize
      · simp only [hw, ne_eq, not_true_eq_false, if_false]
        rfl
      · simp only [hw, ne_eq, not_false_eq_true, if_true]
        rfl
    · rfl
  · rfl

theorem executeCommand_setQueue (env : Env) (s : State) (cmd : ReplayWriteCommand)
    (q : List ReplayWriteCommand) :
    executeCommand env { s with m_writeQueue := q } cmd =
      { executeCommand env s cmd with m_writeQueue := q } := by
  have hopenq : fopenWb env { s with m_writeQueue := q } s.m_filename =
      { fopenWb env s s.m_filename with m_writeQueue := q } := by
    unfold fopenWb; split <;> rfl
  unfold executeCommand
  split
  · dsimp only
    split
    · rw [hopenq]
      dsimp only
      split
      · rfl
      · exact executeWrite_setQueue env _ cmd q
    · exact executeWrite_setQueue env s cmd q
  · dsimp only
    split
    · unfold fseek
      dsimp only
      split
      · rfl
      · split <;> rfl
    · rfl
  · dsimp only
    split <;> rfl
  · dsimp only
    split <;> rfl

theorem processQueue_eq_executeAll (env : Env) (s : State) :
    processQueue env s =
      executeAll env { s with m_writeQueue := [] } s.m_writeQueue := by
  rw [processQueue_eq_workerRun]
  generalize hq : s.m_writeQueue = q
  induction q generalizing s with
  | nil =>
    cases s
    simp only at hq
    simp [workerRun, executeAll, hq]
  | cons c q ih =>
    have hstep : workerStep env s = executeCommand env { s with m_writeQueue := q } c := by
      simp [workerStep, hq]
    have hq1 : (workerStep env s).m_writeQueue = q := by
      rw [(workerStep_queue env s).1, hq]; rfl
    have hstate : { workerStep env s with m_writeQueue := [] } =
        executeCommand env { s with m_writeQueue := [] } c := by
      rw [hstep, executeCommand_setQueue env s c q, executeCommand_setQueue env s c []]
    show workerRun env q.length (workerStep env s) =
      executeAll env (executeCommand env { s with m_writeQueue := [] } c) q
    rw [ih (workerStep env s) hq1, hstate]

theorem executeWrite_totalWrites (env : Env) (s : State) (cmd : ReplayWriteCommand)
    (hfile : s.m_file ≠ none) (htype : cmd.type = CommandType.CMD_WRITE_DATA) :
    (executeWrite env s cmd).m_totalWrites =
      if carriesData cmd = true then (s.m_totalWrites + 1) % UINT_RANGE
      else s.m_totalWrites := by
  unfold executeWrite
  split
  · rename_i h d _ hdata
    by_cases hsize : cmd.dataSize > 0
    · rw [if_pos hsize]
      dsimp only
      have hcd : carriesData cmd = true := by simp [carriesData, htype, hdata, hsize]
      rw [if_pos hcd]
      split <;> simp [fwrite]
    · rw [if_neg hsize]
      have hcd : ¬ (carriesData cmd = true) := by simp [carriesData, hsize]
      rw [if_neg hcd]
  · rename_i hno
    have hcd : ¬ (carriesData cmd = true) := by
      cases hf : s.m_file with
      | none => exact absurd hf hfile
      | some h =>
        cases hd : cmd.data with
        | none => simp [carriesData, hd]
        | some d => exact absurd hd (hno h d hf)
    rw [if_neg hcd]

theorem executeCommand_totalWrites (env : Env) (s : State) (cmd : ReplayWriteCommand)
    (hname : s.m_filename ≠ "") (hopen : env.opens s.m_filename = true) :
    (executeCommand env s cmd).m_totalWrites =
      if carriesData cmd = true then (s.m_totalWrites + 1) % UINT_RANGE
      else s.m_totalWrites := by
  cases htype : cmd.type with
  | CMD_WRITE_DATA =>
    cases hf : s.m_file with
    | none =>
      have hgen : executeCommand env s cmd =
          executeWrite env
            { s with m_file := some { path := s.m_filename, pos := 0 },
                     files := Function.update s.files s.m_filename (some []),
                     disk := Function.update s.disk s.m_filename (some []),
                     calls := s.calls ++ [SysCall.fopen s.m_filename true] } cmd := by
        simp [executeCommand, htype, hf, hname, fopenWb, hopen]
      rw [hgen, executeWrite_totalWrites env _ cmd (by simp) htype]
    | some h =>
      have hgen : executeCommand env s cmd = executeWrite env s cmd := by
        simp [executeCommand, htype, hf]
      rw [hgen, executeWrite_totalWrites env s cmd (by simp [hf]) htype]
  | CMD_SEEK =>
    have hcd : ¬ (carriesData cmd = true) := by simp [carriesData, htype]
    rw [if_neg hcd]
    unfold executeCommand
    simp only [htype]
    split
    · unfold fseek; dsimp only; split
      · rfl
      · split <;> rfl
    · rfl
  | CMD_FLUSH =>
    have hcd : ¬ (carriesData cmd = true) := by simp [carriesData, htype]
    rw [if_neg hcd]
    unfold executeCommand
    simp only [htype]
    split <;> rfl
  | CMD_CLOSE =>
    have hcd : ¬ (carriesData cmd = true) := by simp [carriesData, htype]
    rw [if_neg hcd]
    unfold executeCommand
    simp only [htype]
    split <;> rfl

theorem executeAll_totalWrites (env : Env) (q : List ReplayWriteCommand) :
    ∀ s : State, s.m_filename ≠ "" → env.opens s.m_filename = true →
      (∀ c ∈ q, c.type = CommandType.CMD_WRITE_DATA → carriesData c = true) →
      s.m_totalWrites + writeCount q < UINT_RANGE →
      (executeAll env s q).m_totalWrites = s.m_totalWrites + writeCount q := by
  induction q with
  | nil => intro s _ _ _ _; simp [executeAll, writeCount]
  | cons c q ih =>
    intro s hname hopen hbuf hwrap
    have hfn := (executeCommand_queue env s c).2.1
    have htw := executeCommand_totalWrites env s c hname hopen
    have hbuf' : ∀ x ∈ q, x.type = CommandType.CMD_WRITE_DATA → carriesData x = true :=
      fun x hx => hbuf x (List.mem_cons_of_mem c hx)
    show (executeAll env (executeCommand env s c) q).m_totalWrites = _
    by_cases hc : c.type = CommandType.CMD_WRITE_DATA
    · have hcd := hbuf c (List.mem_cons_self c q) hc
      have hcount : writeCount (c :: q) = writeCount q + 1 := by
        simp [writeCount, List.filter_cons, hc]
      rw [hcount] at hwrap ⊢
      rw [if_pos hcd, Nat.mod_eq_of_lt (by omega)] at htw
      rw [ih (executeCommand env s c) (by rw [hfn]; exact hname) (by rw [hfn]; exact hopen)
        hbuf' (by rw [htw]; omega), htw]
      omega
    · have hcd : ¬ (carriesData c = true) := by simp [carriesData, hc]
      have hcount : writeCount (c :: q) = writeCount q := by
        simp [writeCount, List.filter_cons, hc]
      rw [hcount] at hwrap ⊢
      rw [if_neg hcd] at htw
      rw [ih (executeCommand env s c) (by rw [hfn]; exact hname) (by rw [hfn]; exact hopen)
        hbuf' (by rw [htw]; exact hwrap), htw]

/-! ## Runs on a target that never opens -/

theorem failing_writeData (fs : Files) (path : Path) (s : State) (d : List Byte)
    (h : Failing fs path s) :
    Failing fs path (writeData s d) ∧ served (writeData s d) = served s + 1 ∧
    (s.m_writeQueue.length < MAX_QUEUE_SIZE →
      droppedWrites (writeData s d) = droppedWrites s) := by
  obtain ⟨h1, h2, h3, h4, h5, h6, h7⟩ := h
  by_cases hfull : MAX_QUEUE_SIZE ≤ s.m_writeQueue.length
  · rw [writeData, writeDataCap_full MAX_QUEUE_SIZE s d hfull]
    refine ⟨⟨h1, h2, h3, h4, h5, h6, h7⟩, ?_, fun hlt => absurd hfull (by omega)⟩
    simp [served, openAttempts, droppedWrites, List.filter_append]
    omega
  · have hpush : writeData s d =
        { s with m_writeQueue := s.m_writeQueue ++ [writeCommand d],
                 m_peakQueueSize := (writeData s d).m_peakQueueSize } := by
      unfold writeData writeDataCap
      rw [if_neg hfull]
      dsimp only
      split <;> simp [writeCommand]
    rw [hpush]
    refine ⟨⟨h1, h2, h3, h4, h5, ?_, h7⟩, ?_, fun _ => rfl⟩
    · intro c hc
      rcases List.mem_append.mp hc with hc | hc
      · exact h6 c hc
      · rw [List.mem_singleton.mp hc]; rfl
    · simp [served, openAttempts, droppedWrites]
      omega

theorem failing_workerStep (env : Env) (fs : Files) (path : Path) (hpath : path ≠ "")
    (hfail : env.opens path = false) (s : State) (h : Failing fs path s) :
    Failing fs path (workerStep env s) ∧ served (workerStep env s) = served s ∧
    droppedWrites (workerStep env s) = droppedWrites s := by
  obtain ⟨h1, h2, h3, h4, h5, h6, h7⟩ := h
  subst h2
  cases hq : s.m_writeQueue with
  | nil =>
    rw [workerStep_nil env s hq]
    exact ⟨⟨h1, rfl, h3, h4, h5, h6, h7⟩, rfl, rfl⟩
  | cons c q =>
    have htype : c.type = CommandType.CMD_WRITE_DATA := h6 c (by rw [hq]; exact List.mem_cons_self c q)
    have hstep : workerStep env s =
        { s with m_writeQueue := q,
                 calls := s.calls ++ [SysCall.fopen s.m_filename false],
                 log := s.log ++ [LogMsg.openFailed s.m_filename] } := by
      have := executeCommand_write_fail env { s with m_writeQueue := q } c htype h1 hpath hfail
      simp [workerStep, hq, this]
    rw [hstep]
    refine ⟨⟨h1, rfl, h3, h4, h5, ?_, ?_⟩, ?_, ?_⟩
    · intro x hx
      exact h6 x (by rw [hq]; exact List.mem_cons_of_mem c hx)
    · intro x hx
      rcases List.mem_append.mp hx with hx | hx
      · exact h7 x hx
      · exact List.mem_singleton.mp hx
    · simp [served, openAttempts, droppedWrites, List.filter_append, hq]
      omega
    · simp [droppedWrites, List.filter_append]

theorem failing_workerRun (env : Env) (fs : Files) (path : Path) (hpath : path ≠ "")
    (hfail : env.opens path = false) (k : Nat) (s : State) (h : Failing fs path s) :
    Failing fs path (workerRun env k s) ∧ served (workerRun env k s) = served s ∧
    droppedWrites (workerRun env k s) = droppedWrites s := by
  induction k generalizing s with
  | zero => exact ⟨h, rfl, rfl⟩
  | succ k ih =>
    obtain ⟨h1, h2, h3⟩ := failing_workerStep env fs path hpath hfail s h
    obtain ⟨h4, h5, h6⟩ := ih (workerStep env s) h1
    exact ⟨h4, by rw [workerRun, h5, h2], by rw [workerRun, h6, h3]⟩

theorem failing_runActions (env : Env) (fs : Files) (path : Path) (hpath : path ≠ "")
    (hfail : env.opens path = false) (acts : List Action) :
    ∀ s : State, Failing fs path s →
      Failing fs path (runActions env s acts) ∧
      served (runActions env s acts) = served s + (writesOf acts).length ∧
      (neverFull env s acts = true →
        droppedWrites (runActions env s acts) = droppedWrites s) := by
  induction acts with
  | nil => intro s h; exact ⟨h, rfl, fun _ => rfl⟩
  | cons a acts ih =>
    intro s h
    cases a with
    | write d =>
      obtain ⟨h1, h2, h3⟩ := failing_writeData fs path s d h
      obtain ⟨h4, h5, h6⟩ := ih (writeData s d) h1
      refine ⟨h4, ?_, ?_⟩
      · simp only [runActions, writesOf, List.length_cons, h5, h2]
        omega
      · intro hroom
        have hroom : s.m_writeQueue.length < MAX_QUEUE_SIZE ∧
            neverFull env (writeData s d) acts = true := by
          simpa [neverFull] using hroom
        simp only [runActions]
        rw [h6 hroom.2, h3 hroom.1]
    | work =>
      obtain ⟨h1, h2, h3⟩ := failing_workerStep env fs path hpath hfail s h
      obtain ⟨h4, h5, h6⟩ := ih (workerStep env s) h1
      refine ⟨h4, ?_, ?_⟩
      · simp only [runActions, writesOf, h5, h2]
      · intro hroom
        simp only [runActions]
        rw [h6 (by simpa [neverFull] using hroom), h3]

theorem failing_openFile_new (env : Env) (progress : List Nat) (fs : Files) (path : Path) :
    Failing fs path (openFile env progress (new fs) path).1 ∧
    served (openFile env progress (new fs) path).1 = 0 ∧
    droppedWrites (openFile env progress (new fs) path).1 = 0 := by
  refine ⟨⟨rfl, rfl, ⟨rfl, rfl⟩, rfl, rfl, ?_, ?_⟩, ?_, ?_⟩
  · intro c hc; simp [openFile, new] at hc
  · intro c hc; simp [openFile, new] at hc
  · simp [served, openAttempts, droppedWrites, openFile, new]
  · simp [droppedWrites, openFile, new]

theorem runActions_writes (env : Env) (bufs : List (List Byte)) :
    ∀ s : State, runActions env s (bufs.map Action.write) = writeAll MAX_QUEUE_SIZE s bufs := by
  induction bufs with
  | nil => intro s; rfl
  | cons d bufs ih =>
    intro s
    simp only [List.map_cons, runActions, ih]
    rfl

theorem writesOf_writes (bufs : List (List Byte)) :
    writesOf (bufs.map Action.write) = bufs := by
  induction bufs with
  | nil => rfl
  | cons d bufs ih => simp [writesOf, ih]

theorem failing_drained (env : Env) (fs : Files) (path : Path) (hpath : path ≠ "")
    (hfail : env.opens path = false) (s : State) (h : Failing fs path s) :
    Failing fs path (processQueue env s) ∧ (processQueue env s).m_writeQueue = [] ∧
    openAttempts (processQueue env s) + droppedWrites (processQueue env s) = served s ∧
    droppedWrites (processQueue env s) = droppedWrites s := by
  have hq := processQueue_queue env s
  obtain ⟨h1, h2, h3⟩ := failing_workerRun env fs path hpath hfail s.m_writeQueue.length s h
  rw [← processQueue_eq_workerRun] at h1 h2 h3
  refine ⟨h1, hq, ?_, h3⟩
  rw [← h2]
  simp [served, hq]

theorem failing_sequential (env : Env) (fs : Files) (path : Path) (hpath : path ≠ "")
    (hfail : env.opens path = false) (bufs : List (List Byte)) :
    openAttempts (processQueue env
      (writeAll MAX_QUEUE_SIZE (openFile env [] (new fs) path).1 bufs)) =
      min bufs.length MAX_QUEUE_SIZE := by
  obtain ⟨h0, hs0, _⟩ := failing_openFile_new env [] fs path
  obtain ⟨h1, h2, _⟩ := failing_runActions env fs path hpath hfail (bufs.map Action.write) _ h0
  rw [runActions_writes, writesOf_writes, hs0] at h2
  rw [runActions_writes] at h1
  obtain ⟨_, _, h3, h4⟩ := failing_drained env fs path hpath hfail _ h1
  have hd : droppedWrites (writeAll MAX_QUEUE_SIZE (openFile env [] (new fs) path).1 bufs) =
      bufs.length - MAX_QUEUE_SIZE := by
    rw [writeAll_eq MAX_QUEUE_SIZE (by decide) _ rfl rfl bufs]
    simp [droppedWrites, openFile, new, List.filter_append, List.filter_replicate]
  rw [h4, hd, h2] at h3
  omega

/-! ## The facade -/

theorem closeFile_eq (env : Env) (progress : List Nat) (s : State) (h : s.m_filename ≠ "") :
    ∃ k, closeFile env progress s =
      { workerRun env k (closeFileEnqueue s) with m_filename := "" } := by
  obtain ⟨k, hk⟩ := closeFileWait_eq_workerRun env 50 progress (closeFileEnqueue s)
  exact ⟨k, by simp [closeFile, h, hk]⟩

theorem closeFile_noProgress (env : Env) (s : State) (h : s.m_filename ≠ "") :
    closeFile env [] s = { closeFileEnqueue s with m_filename := "" } := by
  simp [closeFile, h, closeFileWait_noProgress]

theorem sameOutput_refl (s : State) : sameOutput s s :=
  ⟨rfl, rfl, rfl, rfl, rfl, rfl⟩

theorem closeFile_sameOutput (env : Env) (s : State) :
    sameOutput s (closeFile env [] s) := by
  by_cases h : s.m_filename = ""
  · simp [closeFile, h, sameOutput]
  · rw [closeFile_noProgress env s h]
    simp [sameOutput, closeFileEnqueue]

/-! ## A session closed with the queue drained -/

theorem closeFile_drained (env : Env) (progress : List Nat) (s : State)
    (hname : s.m_filename ≠ "") (hq : (closeFile env progress s).m_writeQueue = []) :
    closeFile env progress s =
      { processQueue env (closeFileEnqueue s) with m_filename := "" } := by
  obtain ⟨k, hk⟩ := closeFile_eq env progress s hname
  have hdrop := (workerRun_queue env k (closeFileEnqueue s)).1
  rw [hk] at hq
  simp only at hq
  rw [hq] at hdrop
  have hlen : (closeFileEnqueue s).m_writeQueue.length ≤ k :=
    List.drop_eq_nil_iff.mp hdrop.symm
  have hsplit : workerRun env k (closeFileEnqueue s) =
      workerRun env (k - (closeFileEnqueue s).m_writeQueue.length)
        (workerRun env (closeFileEnqueue s).m_writeQueue.length (closeFileEnqueue s)) := by
    rw [workerRun_add]
    congr 1
    omega
  rw [hk, hsplit, ← processQueue_eq_workerRun,
    workerRun_nil env _ _ (processQueue_queue env (closeFileEnqueue s))]

theorem tracks_close_drained (env : Env) (fs : Files) (path : Path)
    (hopen : env.opens path = true) (hc : env.complete) (total : List Byte) (s : State)
    (h : Tracks fs path total [] s) :
    (processQueue env (closeFileEnqueue s)).m_file = none ∧
    (processQueue env (closeFileEnqueue s)).m_writeQueue = [] ∧
    (processQueue env (closeFileEnqueue s)).files path =
      (if total = [] then fs path else some total) ∧
    ∀ p, p ≠ path → (processQueue env (closeFileEnqueue s)).files p = fs p := by
  obtain ⟨hname, done, ds, hq, hds, hfile, htotal⟩ := h
  have hqe : (closeFileEnqueue s).m_writeQueue = ds.map writeCommand ++ [closeCommand] := by
    simp [closeFileEnqueue, hq]
  obtain ⟨h1, h2, h3⟩ := tracks_drain_writes env fs path hopen hc ds (closeFileEnqueue s) done
    [closeCommand] hname hqe hds (fileTracks_congr fs path done s _ rfl rfl hfile)
  have hrun : processQueue env (closeFileEnqueue s) =
      workerStep env (workerRun env ds.length (closeFileEnqueue s)) := by
    rw [processQueue_eq_workerRun, hqe]
    simp only [List.length_append, List.length_map, List.length_singleton]
    rw [← workerRun_add]
    rfl
  have hstep : workerStep env (workerRun env ds.length (closeFileEnqueue s)) =
      executeCommand env
        { workerRun env ds.length (closeFileEnqueue s) with m_writeQueue := [] }
        closeCommand := by
    simp [workerStep, h2]
  rw [htotal] at h3
  refine ⟨?_, processQueue_queue env _, ?_, ?_⟩
  · rw [hrun, hstep]
    simp only [executeCommand, closeCommand]
    split <;> simp_all [fclose, fflush]
  · rw [hrun, hstep]
    have hfiles : (executeCommand env
        { workerRun env ds.length (closeFileEnqueue s) with m_writeQueue := [] }
        closeCommand).files = (workerRun env ds.length (closeFileEnqueue s)).files := by
      simp only [executeCommand, closeCommand]
      split <;> simp [fclose, fflush]
    rw [hfiles]
    rcases h3 with ⟨_, hfs, hdone⟩ | ⟨hne, _, hcontent, _⟩
    · simp [hfs, hdone]
    · simp [hne, hcontent]
  · intro p hp
    rw [hrun, hstep]
    have hfiles : (executeCommand env
        { workerRun env ds.length (closeFileEnqueue s) with m_writeQueue := [] }
        closeCommand).files = (workerRun env ds.length (closeFileEnqueue s)).files := by
      simp only [executeCommand, closeCommand]
      split <;> simp [fclose, fflush]
    rw [hfiles]
    rcases h3 with ⟨_, hfs, _⟩ | ⟨_, _, _, hother⟩
    · rw [hfs]
    · exact hother p hp

theorem writeAndClose_drained (env : Env) (fs : Files) (path : Path) (data : List Byte)
    (progress : List Nat) (k : Nat) (s : State)
    (hopen : env.opens path = true) (hc : env.complete) (hd : data ≠ [])
    (hfile : s.m_file = none) (hq : s.m_writeQueue = []) (hfs : s.files = fs)
    (hdr : (writeAndClose env progress k s path data).m_writeQueue = []) :
    (writeAndClose env progress k s path data).m_file = none ∧
    (writeAndClose env progress k s path data).m_writeQueue = [] ∧
    (writeAndClose env progress k s path data).files path = some data ∧
    ∀ p, p ≠ path → (writeAndClose env progress k s path data).files p = fs p := by
  have hpath : path ≠ "" := opens_ne_empty env path hopen
  have ht0 : Tracks fs path [] [] (openFile env [] s path).1 := by
    refine ⟨rfl, [], [], ?_, by simp, Or.inl ⟨?_, ?_, rfl⟩, rfl⟩
    · simp [openFile, hfile, hq]
    · simp [openFile, hfile]
    · simp [openFile, hfile, hfs]
  have hroom : (openFile env [] s path).1.m_writeQueue.length < MAX_QUEUE_SIZE := by
    simp [openFile, hfile, hq, MAX_QUEUE_SIZE]
  have ht1 : Tracks fs path ([] ++ data) [] (writeData (openFile env [] s path).1 data) :=
    tracks_writeDataCap MAX_QUEUE_SIZE fs path [] _ data hroom hd ht0
  have ht2 := tracks_workerRun env fs path hopen hc _ k _ ht1
  have hname : (workerRun env k (writeData (openFile env [] s path).1 data)).m_filename ≠ "" := by
    rw [ht2.1]; exact hpath
  have heq := closeFile_drained env progress _ hname hdr
  obtain ⟨c1, c2, c3, c4⟩ := tracks_close_drained env fs path hopen hc _ _ ht2
  unfold writeAndClose at *
  rw [heq]
  simp only [List.nil_append, hd, if_false] at c3
  exact ⟨c1, c2, c3, c4⟩

/-! ## The statistics -/

theorem executeWrite_counters (env : Env) (s : State) (cmd : ReplayWriteCommand) :
    ((executeWrite env s cmd).m_totalWrites = s.m_totalWrites ∨
      (executeWrite env s cmd).m_totalWrites = (s.m_totalWrites + 1) % UINT_RANGE) ∧
    ((executeWrite env s cmd).m_totalBytesWritten = s.m_totalBytesWritten ∨
      ∃ w, w ≤ cmd.dataSize ∧
        (executeWrite env s cmd).m_totalBytesWritten =
          (s.m_totalBytesWritten + w) % UINT_RANGE) := by
  unfold executeWrite
  split
  · rename_i h d _ _
    by_cases hsize : cmd.dataSize > 0
    · rw [if_pos hsize]
      dsimp only
      have hw : fwriteCount env s (List.take cmd.dataSize d).length ≤ cmd.dataSize := by
        unfold fwriteCount
        simp only [List.length_take]
        omega
      constructor
      · right
        split <;> simp [fwrite]
      · right
        refine ⟨fwriteCount env s (List.take cmd.dataSize d).length, hw, ?_⟩
        split <;> simp [fwrite]
    · rw [if_neg hsize]
      exact ⟨Or.inl rfl, Or.inl rfl⟩
  · exact ⟨Or.inl rfl, Or.inl rfl⟩

theorem executeCommand_counters (env : Env) (s : State) (cmd : ReplayWriteCommand) :
    ((executeCommand env s cmd).m_totalWrites = s.m_totalWrites ∨
      (executeCommand env s cmd).m_totalWrites = (s.m_totalWrites + 1) % UINT_RANGE) ∧
    ((executeCommand env s cmd).m_totalBytesWritten = s.m_totalBytesWritten ∨
      ∃ w, w ≤ cmd.dataSize ∧
        (executeCommand env s cmd).m_totalBytesWritten =
          (s.m_totalBytesWritten + w) % UINT_RANGE) := by
  have hopen : (fopenWb env s s.m_filename).m_totalWrites = s.m_totalWrites ∧
      (fopenWb env s s.m_filename).m_totalBytesWritten = s.m_totalBytesWritten := by
    unfold fopenWb; split <;> exact ⟨rfl, rfl⟩
  unfold executeCommand
  split
  · dsimp only
    split
    · split
      · exact ⟨Or.inl hopen.1, Or.inl hopen.2⟩
      · have h := executeWrite_counters env (fopenWb env s s.m_filename) cmd
        rw [hopen.1, hopen.2] at h
        exact h
    · exact executeWrite_counters env s cmd
  · split
    · unfold fseek
      dsimp only
      split
      · exact ⟨Or.inl rfl, Or.inl rfl⟩
      · split <;> exact ⟨Or.inl rfl, Or.inl rfl⟩
    · exact ⟨Or.inl rfl, Or.inl rfl⟩
  · split <;> exact ⟨Or.inl rfl, Or.inl rfl⟩
  · split <;> exact ⟨Or.inl rfl, Or.inl rfl⟩

theorem countersGrow_refl (s : State) : countersGrow s s :=
  ⟨Nat.le_refl _, Nat.le_refl _, Nat.le_refl _⟩

theorem closeFile_countersGrow (env : Env) (s : State) :
    countersGrow s (closeFile env [] s) := by
  by_cases h : s.m_filename = ""
  · simp [closeFile, h, countersGrow]
  · rw [closeFile_noProgress env s h]
    simp [countersGrow, closeFileEnqueue]

theorem writeData_countersGrow (s : State) (data : List Byte) :
    countersGrow s (writeData s data) := by
  unfold writeData writeDataCap
  split
  · exact countersGrow_refl s
  · dsimp only
    split
    · rename_i hgt
      exact ⟨Nat.le_refl _, Nat.le_refl _, Nat.le_of_lt hgt⟩
    · exact countersGrow_refl s

/-! ## Where a write lands -/

theorem processQueue_single (env : Env) (s : State) (c : ReplayWriteCommand)
    (hq : s.m_writeQueue = [c]) :
    processQueue env s = executeCommand env { s with m_writeQueue := [] } c := by
  rw [processQueue_eq_executeAll, hq]
  rfl

theorem lockedAccess_append_released (a b : List QueueEvent) (held : Bool)
    (ha : lockedAccess held (a ++ [QueueEvent.leave]) = true) :
    lockedAccess held (a ++ [QueueEvent.leave] ++ b) = lockedAccess false b := by
  induction a generalizing held with
  | nil => simp [lockedAccess]
  | cons e a ih =>
    cases e with
    | enter =>
      simp only [List.cons_append, lockedAccess] at ha ⊢
      exact ih true ha
    | leave =>
      simp only [List.cons_append, lockedAccess] at ha ⊢
      exact ih false ha
    | push =>
      simp only [List.cons_append, lockedAccess, Bool.and_eq_true] at ha ⊢
      obtain ⟨hh, ha⟩ := ha
      subst hh
      simpa using ih true ha
    | pop =>
      simp only [List.cons_append, lockedAccess, Bool.and_eq_true] at ha ⊢
      obtain ⟨hh, ha⟩ := ha
      subst hh
      simpa using ih true ha
    | front =>
      simp only [List.cons_append, lockedAccess, Bool.and_eq_true] at ha ⊢
      obtain ⟨hh, ha⟩ := ha
      subst hh
      simpa using ih true ha
    | empty =>
      simp only [List.cons_append, lockedAccess, Bool.and_eq_true] at ha ⊢
      obtain ⟨hh, ha⟩ := ha
      subst hh
      simpa using ih true ha
    | size =>
      simp only [List.cons_append, lockedAccess, Bool.and_eq_true] at ha ⊢
      obtain ⟨hh, ha⟩ := ha
      subst hh
      simpa using ih true ha

theorem lockedAccess_blocks (block rest : List QueueEvent) (n : Nat)
    (hb : lockedAccess false (block ++ [QueueEvent.leave]) = true) :
    lockedAccess false
      ((List.replicate n (block ++ [QueueEvent.leave])).flatten ++ rest) =
      lockedAccess false rest := by
  induction n with
  | zero => simp
  | succ n ih =>
    rw [List.replicate_succ, List.flatten_cons, List.append_assoc,
      lockedAccess_append_released block _ false hb, ih]

theorem processQueueEvents_locked (n : Nat) :
    lockedAccess false (processQueueEvents n) = true := by
  have h := lockedAccess_blocks
    [QueueEvent.enter, QueueEvent.empty, QueueEvent.front, QueueEvent.pop]
    [QueueEvent.enter, QueueEvent.empty, QueueEvent.leave] n (by decide)
  simpa [processQueueEvents, lockedAccess] using h

theorem closeFileEvents_locked (nameEmpty : Bool) (polls : Nat) :
    lockedAccess false (closeFileEvents nameEmpty polls) = true := by
  unfold closeFileEvents
  split
  · rfl
  · have h := lockedAccess_blocks [QueueEvent.enter, QueueEvent.size] [] polls (by decide)
    have h2 := lockedAccess_append_released [QueueEvent.enter, QueueEvent.push]
      (List.replicate polls getPendingWritesEvents).flatten false (by decide)
    simp only [List.append_nil] at h
    simp only [pushEvents, getPendingWritesEvents] at *
    simpa [lockedAccess] using h2.trans h

theorem destructorEvents_locked (n : Nat) :
    lockedAccess false (destructorEvents n) = true := by
  have h : ∀ k, lockedAccess true
      ((List.replicate k [QueueEvent.empty, QueueEvent.front, QueueEvent.pop]).flatten ++
        [QueueEvent.empty, QueueEvent.leave]) = true := by
    intro k
    induction k with
    | zero => decide
    | succ k ih => simpa [List.replicate_succ, lockedAccess] using ih
  simpa [destructorEvents, lockedAccess] using h n

/-! ## What reaches the file itself -/

theorem processQueue_nil (env : Env) (s : State) (h : s.m_writeQueue = []) :
    processQueue env s = s := by
  rw [processQueue_eq_workerRun]
  exact workerRun_nil env _ s h

theorem executeWrite_aims (env : Env) (s : State) (cmd : ReplayWriteCommand) (path : Path)
    (ha : ∀ h, s.m_file = some h → h.path = path) :
    (∀ h, (executeWrite env s cmd).m_file = some h → h.path = path) ∧
    ∀ p, p ≠ path → (executeWrite env s cmd).disk p = s.disk p := by
  unfold executeWrite
  split
  · rename_i h d hfile _
    have hpath := ha h hfile
    split
    · dsimp only
      constructor
      · intro h'
        split <;> simp [fwrite] <;> (intro heq; rw [← heq]; exact hpath)
      · intro p hp
        have hp' : p ≠ h.path := by rw [hpath]; exact hp
        split <;> simp [fwrite] <;> split <;> simp [Function.update_noteq hp']
    · exact ⟨ha, fun _ _ => rfl⟩
  · exact ⟨ha, fun _ _ => rfl⟩

theorem fopenWb_aims (env : Env) (s : State) (path : Path) :
    (∀ h, (fopenWb env s path).m_file = some h → h.path = path) ∧
    ∀ p, p ≠ path → (fopenWb env s path).disk p = s.disk p := by
  unfold fopenWb
  split
  · refine ⟨?_, fun p hp => by simp [Function.update_noteq hp]⟩
    intro h heq
    simp only [Option.some.injEq] at heq
    rw [← heq]
  · exact ⟨by simp, fun _ _ => rfl⟩

theorem executeCommand_aims (env : Env) (s : State) (cmd : ReplayWriteCommand) (path : Path)
    (ha : Aims path s) :
    Aims path (executeCommand env s cmd) ∧
    ∀ p, p ≠ path → (executeCommand env s cmd).disk p = s.disk p := by
  obtain ⟨hname, hh⟩ := ha
  have key : (∀ h, (executeCommand env s cmd).m_file = some h → h.path = path) ∧
      ∀ p, p ≠ path → (executeCommand env s cmd).disk p = s.disk p := by
    unfold executeCommand
    split
    · split
      · dsimp only
        have hf := fopenWb_aims env s path
        rw [hname]
        split
        · rename_i hnone
          refine ⟨by simp [hnone], fun p hp => hf.2 p hp⟩
        · have hw := executeWrite_aims env (fopenWb env s path) cmd path hf.1
          exact ⟨hw.1, fun p hp => by rw [hw.2 p hp, hf.2 p hp]⟩
      · exact executeWrite_aims env s cmd path hh
    · split
      · rename_i h hfile
        have hpath := hh h hfile
        constructor
        · intro h'
          unfold fseek
          dsimp only
          split
          · intro heq; exact hh h' heq
          · split
            · intro heq; exact hh h' heq
            · simp only [Option.some.injEq]
              intro heq
              rw [← heq]
              exact hpath
        · intro p hp
          have hp' : p ≠ h.path := by rw [hpath]; exact hp
          unfold fseek
          dsimp only
          split
          · split <;> simp [Function.update_noteq hp']
          · split <;> split <;> simp [Function.update_noteq hp']
      · exact ⟨hh, fun _ _ => rfl⟩
    · split
      · rename_i h hfile
        have hpath := hh h hfile
        refine ⟨fun h' heq => hh h' heq, fun p hp => ?_⟩
        have hp' : p ≠ h.path := by rw [hpath]; exact hp
        simp only [fflush]
        split <;> simp [Function.update_noteq hp']
      · exact ⟨hh, fun _ _ => rfl⟩
    · split
      · rename_i h hfile
        have hpath := hh h hfile
        refine ⟨by simp, fun p hp => ?_⟩
        have hp' : p ≠ h.path := by rw [hpath]; exact hp
        simp only [fflush, fclose]
        split <;> split <;> simp [Function.update_noteq hp']
      · exact ⟨hh, fun _ _ => rfl⟩
  exact ⟨⟨by rw [(executeCommand_queue env s cmd).2.1, hname], key.1⟩, key.2⟩

theorem workerStep_aims (env : Env) (s : State) (path : Path) (ha : Aims path s) :
    Aims path (workerStep env s) ∧ ∀ p, p ≠ path → (workerStep env s).disk p = s.disk p := by
  unfold workerStep
  split
  · exact ⟨ha, fun _ _ => rfl⟩
  · rename_i cmd rest _
    exact executeCommand_aims env { s with m_writeQueue := rest } cmd path ha

theorem workerRun_aims (env : Env) (path : Path) (k : Nat) (s : State) (ha : Aims path s) :
    Aims path (workerRun env k s) ∧ ∀ p, p ≠ path → (workerRun env k s).disk p = s.disk p := by
  induction k generalizing s with
  | zero => exact ⟨ha, fun _ _ => rfl⟩
  | succ k ih =>
    have h1 := workerStep_aims env s path ha
    have h2 := ih (workerStep env s) h1.1
    exact ⟨h2.1, fun p hp => by rw [← h1.2 p hp, ← h2.2 p hp]; rfl⟩

theorem writeData_aims (s : State) (d : List Byte) :
    (writeData s d).m_filename = s.m_filename ∧ (writeData s d).m_file = s.m_file ∧
    (writeData s d).disk = s.disk := by
  unfold writeData writeDataCap
  split
  · exact ⟨rfl, rfl, rfl⟩
  · dsimp only
    split <;> exact ⟨rfl, rfl, rfl⟩

theorem runActions_aims (env : Env) (path : Path) (acts : List Action) :
    ∀ s : State, Aims path s →
      Aims path (runActions env s acts) ∧
      ∀ p, p ≠ path → (runActions env s acts).disk p = s.disk p := by
  induction acts with
  | nil => exact fun s ha => ⟨ha, fun _ _ => rfl⟩
  | cons a acts ih =>
    intro s ha
    cases a with
    | write d =>
      obtain ⟨w1, w2, w3⟩ := writeData_aims s d
      have h := ih (writeData s d) ⟨by rw [w1]; exact ha.1, by rw [w2]; exact ha.2⟩
      exact ⟨h.1, fun p hp => by rw [← w3]; exact h.2 p hp⟩
    | work =>
      have h1 := workerStep_aims env s path ha
      have h := ih (workerStep env s) h1.1
      exact ⟨h.1, fun p hp => by rw [← h1.2 p hp]; exact h.2 p hp⟩

theorem runActions_idle (env : Env) (acts : List Action) (hw : writesOf acts = []) :
    ∀ s : State, s.m_writeQueue = [] → runActions env s acts = s := by
  induction acts with
  | nil => exact fun _ _ => rfl
  | cons a acts ih =>
    intro s hq
    cases a with
    | write d => simp [writesOf] at hw
    | work =>
      have h := ih (by simpa [writesOf] using hw) s hq
      simpa [runActions, workerStep_nil env s hq] using h

theorem tracks_aims (fs : Files) (path : Path) (total : List Byte)
    (rest : List ReplayWriteCommand) (s : State) (h : Tracks fs path total rest s) :
    Aims path s := by
  obtain ⟨hname, done, ds, _, _, hfile, _⟩ := h
  refine ⟨hname, ?_⟩
  rcases hfile with ⟨hnone, _, _⟩ | ⟨_, hsome, _, _⟩
  · simp [hnone]
  · intro h heq
    rw [hsome] at heq
    simp only [Option.some.injEq] at heq
    rw [← heq]

theorem tracks_flush_disk (env : Env) (fs : Files) (path : Path) (total : List Byte)
    (s : State) (h : Tracks fs path total [] s) (hq : s.m_writeQueue = [])
    (hidle : total = [] → s.disk path = fs path)
    (hfl : env.flushes s.calls.length = true) :
    (processQueue env (flush s)).disk path = (if total = [] then fs path else some total) ∧
    (∀ p, p ≠ path → (processQueue env (flush s)).disk p = s.disk p) ∧
    (processQueue env (flush s)).m_writeQueue = [] := by
  obtain ⟨_, done, ds, hds, _, hfile, htotal⟩ := h
  have hnil : ds = [] := by
    rw [hq] at hds
    simpa using hds.symm
  subst hnil
  simp only [List.flatten_nil, List.append_nil] at htotal
  subst htotal
  have hrun : processQueue env (flush s) = executeCommand env s flushCommand := by
    rw [processQueue_single env (flush s) flushCommand (by simp [flush, hq, flushCommand])]
    congr 1
    cases s
    simp_all [flush]
  refine ⟨?_, ?_, processQueue_queue env _⟩
  · rw [hrun]
    rcases hfile with ⟨hnone, _, hdone⟩ | ⟨hne, hsome, hcontent, _⟩
    · simp [executeCommand, flushCommand, hnone, hdone, hidle hdone]
    · simp [executeCommand, flushCommand, hsome, fflush, hfl, hne, hcontent]
  · intro p hp
    rw [hrun]
    rcases hfile with ⟨hnone, _, _⟩ | ⟨_, hsome, _, _⟩
    · simp [executeCommand, flushCommand, hnone]
    · simp [executeCommand, flushCommand, hsome, fflush, hfl, Function.update_noteq hp]

theorem tracks_close_disk (env : Env) (fs : Files) (path : Path)
    (hopen : env.opens path = true) (hc : env.complete) (hdur : env.durable)
    (total : List Byte) (s : State) (h : Tracks fs path total [] s) (hne : total ≠ []) :
    (processQueue env (closeFileEnqueue s)).disk path = some total ∧
    ∀ p, p ≠ path → (processQueue env (closeFileEnqueue s)).disk p = s.disk p := by
  have haim : Aims path (closeFileEnqueue s) := tracks_aims fs path total [] s h
  obtain ⟨hname, done, ds, hq, hds, hfile, htotal⟩ := h
  have hqe : (closeFileEnqueue s).m_writeQueue = ds.map writeCommand ++ [closeCommand] := by
    simp [closeFileEnqueue, hq]
  obtain ⟨h1, h2, h3⟩ := tracks_drain_writes env fs path hopen hc ds (closeFileEnqueue s) done
    [closeCommand] hname hqe hds (fileTracks_congr fs path done s _ rfl rfl hfile)
  have hrun : processQueue env (closeFileEnqueue s) =
      workerStep env (workerRun env ds.length (closeFileEnqueue s)) := by
    rw [processQueue_eq_workerRun, hqe]
    simp only [List.length_append, List.length_map, List.length_singleton]
    rw [← workerRun_add]
    rfl
  have hstep : workerStep env (workerRun env ds.length (closeFileEnqueue s)) =
      executeCommand env
        { workerRun env ds.length (closeFileEnqueue s) with m_writeQueue := [] }
        closeCommand := by
    simp [workerStep, h2]
  have hframe := (workerRun_aims env path ds.length (closeFileEnqueue s) haim).2
  rw [htotal] at h3
  rcases h3 with ⟨_, _, hdone⟩ | ⟨_, hsome, hcontent, _⟩
  · exact absurd hdone hne
  · rw [hrun, hstep]
    constructor
    · simp [executeCommand, closeCommand, hsome, fclose, fflush, hdur _, hcontent]
    · intro p hp
      have hfr : (workerRun env ds.length (closeFileEnqueue s)).disk p = s.disk p :=
        hframe p hp
      rw [← hfr]
      simp [executeCommand, closeCommand, hsome, fclose, fflush, hdur _,
        Function.update_noteq hp]

theorem writeAndClose_disk (env : Env) (fs : Files) (path : Path) (data : List Byte)
    (progress : List Nat) (k : Nat) (s : State)
    (hopen : env.opens path = true) (hc : env.complete) (hdur : env.durable) (hd : data ≠ [])
    (hfile : s.m_file = none) (hq : s.m_writeQueue = []) (hfs : s.files = fs)
    (hdr : (writeAndClose env progress k s path data).m_writeQueue = []) :
    (writeAndClose env progress k s path data).disk path = some data ∧
    ∀ p, p ≠ path → (writeAndClose env progress k s path data).disk p = s.disk p := by
  have hpath : path ≠ "" := opens_ne_empty env path hopen
  have ht0 : Tracks fs path [] [] (openFile env [] s path).1 := by
    refine ⟨rfl, [], [], ?_, by simp, Or.inl ⟨?_, ?_, rfl⟩, rfl⟩
    · simp [openFile, hfile, hq]
    · simp [openFile, hfile]
    · simp [openFile, hfile, hfs]
  have hroom : (openFile env [] s path).1.m_writeQueue.length < MAX_QUEUE_SIZE := by
    simp [openFile, hfile, hq, MAX_QUEUE_SIZE]
  have ht1 : Tracks fs path ([] ++ data) [] (writeData (openFile env [] s path).1 data) :=
    tracks_writeDataCap MAX_QUEUE_SIZE fs path [] _ data hroom hd ht0
  have ht2 := tracks_workerRun env fs path hopen hc _ k _ ht1
  have hname : (workerRun env k (writeData (openFile env [] s path).1 data)).m_filename ≠ "" := by
    rw [ht2.1]; exact hpath
  have heq := closeFile_drained env progress _ hname hdr
  obtain ⟨c1, c2⟩ := tracks_close_disk env fs path hopen hc hdur _ _ ht2 (by simpa using hd)
  have hrunframe := (workerRun_aims env path k (writeData (openFile env [] s path).1 data)
    (tracks_aims fs path _ [] _ ht1)).2
  have hw := (writeData_aims (openFile env [] s path).1 data).2.2
  have ho : (openFile env [] s path).1.disk = s.disk := by simp [openFile, hfile]
  unfold writeAndClose at *
  rw [heq]
  refine ⟨by simpa using c1, fun p hp => ?_⟩
  have := c2 p hp
  rw [hrunframe p hp, hw, ho] at this
  exact this

/-! ## The claims -/

/-- C1, as the claim states it, fails: the path opens, every `fwrite` is complete and the
queue is never full, yet once the worker has drained the queue the file itself is empty,
not "AB".  The only library calls made are the `fopen` and the two `fwrite`s: the bytes are
in the stream, and the code calls `fflush` for a Flush or a Close command only. -/
theorem writes_unflushed_counterexample :
    goodEnv.opens "r.rep" = true ∧ goodEnv.complete ∧
    neverFull goodEnv (openFile goodEnv [] (new noFiles) "r.rep").1
      [Action.write [65], Action.work, Action.write [66]] = true ∧
    (drainedWrites goodEnv noFiles "r.rep"
      [Action.write [65], Action.work, Action.write [66]]).m_writeQueue = [] ∧
    (drainedWrites goodEnv noFiles "r.rep"
      [Action.write [65], Action.work, Action.write [66]]).calls =
      [SysCall.fopen "r.rep" true, SysCall.fwrite "r.rep" 1 1, SysCall.fwrite "r.rep" 1 1] ∧
    (drainedWrites goodEnv noFiles "r.rep"
      [Action.write [65], Action.work, Action.write [66]]).disk "r.rep" = some [] ∧
    (drainedWrites goodEnv noFiles "r.rep"
      [Action.write [65], Action.work, Action.write [66]]).disk "r.rep" ≠ some [65, 66] :=
  ⟨by decide, fun _ _ => rfl, by decide, by decide, by decide, by decide, by decide⟩

/-- C1, amended: on a freshly constructed writer, after `openFile(path)` for a path that
opens, take any interleaving of `writeData` calls with non-empty buffers and worker
iterations in which the queue is below `MAX_QUEUE_SIZE` (1024) at every call, on a device
where every `fwrite` is complete.  Once the worker has drained the queue, the stream of
`path` holds exactly the concatenation of the buffers in call order (with no call at all the
worker never opens the file), the queue is empty and no other file has changed, in the
streams or on the device.  The file itself holds the concatenation once the stream is
written out: after a `flush()` that the worker executes next and whose `fflush` succeeds,
the content of `path` is the concatenation of the buffers in call order (with no call at
all the file is what it was), and every other file is what it was. -/
theorem writes_below_capacity_concatenate (env : Env) (fs : Files) (path : Path)
    (acts : List Action)
    (hopen : env.opens path = true) (hc : env.complete)
    (hne : ∀ d ∈ writesOf acts, d ≠ [])
    (hroom : neverFull env (openFile env [] (new fs) path).1 acts = true) :
    (drainedWrites env fs path acts).files path =
      (if writesOf acts = [] then fs path else some (writesOf acts).flatten) ∧
    (drainedWrites env fs path acts).m_writeQueue = [] ∧
    (∀ p, p ≠ path → (drainedWrites env fs path acts).files p = fs p) ∧
    (∀ p, p ≠ path → (drainedWrites env fs path acts).disk p = fs p) ∧
    (env.flushes (drainedWrites env fs path acts).calls.length = true →
      (processQueue env (flush (drainedWrites env fs path acts))).disk path =
        (if writesOf acts = [] then fs path else some (writesOf acts).flatten) ∧
      (∀ p, p ≠ path →
        (processQueue env (flush (drainedWrites env fs path acts))).disk p = fs p) ∧
      (processQueue env (flush (drainedWrites env fs path acts))).m_writeQueue = []) := by
  have h0 := tracks_openFile_new env [] fs path
  have h1 := tracks_runActions env fs path hopen hc acts _ [] h0 hne hroom
  have h2 := tracks_workerRun env fs path hopen hc _
    (runActions env (openFile env [] (new fs) path).1 acts).m_writeQueue.length _ h1
  rw [← processQueue_eq_workerRun] at h2
  have hq := processQueue_queue env (runActions env (openFile env [] (new fs) path).1 acts)
  have h3 := tracks_final fs path _ _ h2 hq
  have ha0 : Aims path (openFile env [] (new fs) path).1 := tracks_aims fs path _ _ _ h0
  have ha1 := runActions_aims env path acts _ ha0
  have ha2 := workerRun_aims env path
    (runActions env (openFile env [] (new fs) path).1 acts).m_writeQueue.length _ ha1.1
  rw [← processQueue_eq_workerRun] at ha2
  have hdisk : ∀ p, p ≠ path →
      (processQueue env (runActions env (openFile env [] (new fs) path).1 acts)).disk p =
        fs p := by
    intro p hp
    rw [ha2.2 p hp, ha1.2 p hp]
    rfl
  have hidle : [] ++ (writesOf acts).flatten = [] →
      (processQueue env (runActions env (openFile env [] (new fs) path).1 acts)).disk path =
        fs path := by
    intro hnil
    have hw : writesOf acts = [] :=
      (flatten_eq_nil_of_nonempty _ hne).mp (by simpa using hnil)
    rw [runActions_idle env acts hw _ rfl, processQueue_nil env _ rfl]
    rfl
  simp only [List.nil_append, flatten_eq_nil_of_nonempty _ hne] at h3
  refine ⟨h3.1, hq, h3.2, hdisk, ?_⟩
  intro hfl
  obtain ⟨f1, f2, f3⟩ := tracks_flush_disk env fs path _ _ h2 hq hidle hfl
  simp only [List.nil_append, flatten_eq_nil_of_nonempty _ hne] at f1
  exact ⟨f1, fun p hp => by rw [← hdisk p hp]; exact f2 p hp, f3⟩

theorem writes_below_capacity_concatenate_witness :
    (drainedWrites goodEnv noFiles "r.rep"
      [Action.write [65], Action.work, Action.write [66, 67], Action.write [68],
        Action.work]).files "r.rep" = some [65, 66, 67, 68] ∧
    (processQueue goodEnv (flush (drainedWrites goodEnv noFiles "r.rep"
      [Action.write [65], Action.work, Action.write [66, 67], Action.write [68],
        Action.work]))).disk "r.rep" = some [65, 66, 67, 68] :=
  have h := writes_below_capacity_concatenate goodEnv noFiles "r.rep"
    [Action.write [65], Action.work, Action.write [66, 67], Action.write [68], Action.work]
    (by decide) (fun _ _ => rfl) (by decide) (by decide)
  ⟨h.1, (h.2.2.2.2 rfl).1⟩

/-- C2: when the queue holds `MAX_QUEUE_SIZE` (1024) commands, or more, `writeData` with
any buffer changes nothing but the log, which gains the "queue full" line: the queue and its
length, `m_peakQueueSize`, `m_totalWrites`, `m_totalBytesWritten`, the target path, the
handle, every file (in the streams and on the device) and the library-call trace are as
before. -/
theorem writeData_at_capacity_noop (s : State) (data : List Byte)
    (hfull : MAX_QUEUE_SIZE ≤ s.m_writeQueue.length) :
    writeData s data = { s with log := s.log ++ [LogMsg.queueFull MAX_QUEUE_SIZE] } ∧
    (writeData s data).m_writeQueue = s.m_writeQueue ∧
    (writeData s data).m_writeQueue.length = s.m_writeQueue.length ∧
    (writeData s data).m_peakQueueSize = s.m_peakQueueSize ∧
    (writeData s data).m_totalWrites = s.m_totalWrites ∧
    (writeData s data).m_totalBytesWritten = s.m_totalBytesWritten ∧
    (writeData s data).m_filename = s.m_filename ∧
    (writeData s data).m_file = s.m_file ∧
    (writeData s data).files = s.files ∧
    (writeData s data).calls = s.calls ∧
    (writeData s data).disk = s.disk := by
  have h : writeData s data = { s with log := s.log ++ [LogMsg.queueFull MAX_QUEUE_SIZE] } :=
    writeDataCap_full MAX_QUEUE_SIZE s data hfull
  simp [h]

theorem writeData_at_capacity_noop_witness :
    fullQueueState.m_writeQueue.length = MAX_QUEUE_SIZE ∧
    (writeData fullQueueState [65]).m_writeQueue = fullQueueState.m_writeQueue ∧
    (writeData fullQueueState [65]).m_totalWrites = 0 :=
  have hlen : fullQueueState.m_writeQueue.length = MAX_QUEUE_SIZE :=
    List.length_replicate MAX_QUEUE_SIZE flushCommand
  have h := writeData_at_capacity_noop fullQueueState [65] (Nat.le_of_eq hlen.symm)
  ⟨hlen, h.2.1, h.2.2.2.2.1⟩

/-- C3, as the claim states it, fails: with the limit at 2 and "A", "B", "C" written before
the worker runs, on a device where the path opens and every `fwrite` is complete, the full
drain leaves the file itself empty, not "AB": the two buffers are still in the stream, which
the code writes out for a Flush or a Close command only. -/
theorem capacity_scenario_counterexample :
    goodEnv.opens "r.rep" = true ∧ goodEnv.complete ∧
    (processQueue goodEnv
      (writeAll 2 (openFile goodEnv [] (new noFiles) "r.rep").1
        [[65], [66], [67]])).m_writeQueue = [] ∧
    (processQueue goodEnv
      (writeAll 2 (openFile goodEnv [] (new noFiles) "r.rep").1
        [[65], [66], [67]])).disk "r.rep" = some [] ∧
    (processQueue goodEnv
      (writeAll 2 (openFile goodEnv [] (new noFiles) "r.rep").1
        [[65], [66], [67]])).disk "r.rep" ≠ some [65, 66] :=
  ⟨by decide, fun _ _ => rfl, by decide, by decide, by decide⟩

/-- C3, amended: for every queue limit `cap` (an `UnsignedInt`) and every list of `n`
non-empty buffers written with `writeData` to a fresh writer after `openFile(path)`, with no
worker step in between, the queue holds the WriteData commands of the first `min n cap`
buffers in call order, `m_peakQueueSize` is `min n cap` and `n - min n cap` writes were
dropped.  When `path` opens and every `fwrite` is complete, a full drain leaves the stream
of `path` holding the concatenation of those first `min n cap` buffers and the queue empty;
and after a `flush()` that the worker executes next and whose `fflush` succeeds, the file
itself holds that concatenation (the file is not touched when there are no buffers). -/
theorem capacity_keeps_first_writes (env : Env) (fs : Files) (path : Path) (cap : Nat)
    (bufs : List (List Byte)) (hcap : cap < UINT_RANGE) (hne : ∀ d ∈ bufs, d ≠ []) :
    (writeAll cap (openFile env [] (new fs) path).1 bufs).m_writeQueue =
      (bufs.take cap).map writeCommand ∧
    (bufs.take cap).length = min bufs.length cap ∧
    (writeAll cap (openFile env [] (new fs) path).1 bufs).m_peakQueueSize =
      min bufs.length cap ∧
    droppedWrites (writeAll cap (openFile env [] (new fs) path).1 bufs) =
      bufs.length - min bufs.length cap ∧
    (env.opens path = true → env.complete →
      (processQueue env (writeAll cap (openFile env [] (new fs) path).1 bufs)).files path =
        (if bufs.take cap = [] then fs path else some (bufs.take cap).flatten) ∧
      (processQueue env
        (writeAll cap (openFile env [] (new fs) path).1 bufs)).m_writeQueue = [] ∧
      (env.flushes (processQueue env
          (writeAll cap (openFile env [] (new fs) path).1 bufs)).calls.length = true →
        (processQueue env (flush (processQueue env
          (writeAll cap (openFile env [] (new fs) path).1 bufs)))).disk path =
          (if bufs.take cap = [] then fs path else some (bufs.take cap).flatten))) := by
  have heq := writeAll_eq cap hcap (openFile env [] (new fs) path).1 rfl rfl bufs
  have hne' : ∀ d ∈ bufs.take cap, d ≠ [] := fun d hd => hne d (List.mem_of_mem_take hd)
  refine ⟨by rw [heq], List.length_take cap bufs ▸ Nat.min_comm _ _, by rw [heq], ?_, ?_⟩
  · rw [heq]
    simp [droppedWrites, openFile, new, List.filter_append, List.filter_replicate]
    omega
  · intro hopen hc
    have hq := processQueue_queue env (writeAll cap (openFile env [] (new fs) path).1 bufs)
    have htr : Tracks fs path (bufs.take cap).flatten []
        (writeAll cap (openFile env [] (new fs) path).1 bufs) := by
      rw [heq]
      exact ⟨rfl, [], bufs.take cap, by simp, hne', Or.inl ⟨rfl, rfl, rfl⟩, by simp⟩
    have h2 := tracks_workerRun env fs path hopen hc _
      (writeAll cap (openFile env [] (new fs) path).1 bufs).m_writeQueue.length _ htr
    rw [← processQueue_eq_workerRun] at h2
    have h3 := (tracks_final fs path _ _ h2 hq).1
    simp only [flatten_eq_nil_of_nonempty _ hne'] at h3
    refine ⟨h3, hq, ?_⟩
    intro hfl
    have hidle : (bufs.take cap).flatten = [] →
        (processQueue env (writeAll cap (openFile env [] (new fs) path).1 bufs)).disk path =
          fs path := by
      intro hnil
      have hw : bufs.take cap = [] := (flatten_eq_nil_of_nonempty _ hne').mp hnil
      have hqe : (writeAll cap (openFile env [] (new fs) path).1 bufs).m_writeQueue = [] := by
        rw [heq]
        simp [hw]
      rw [processQueue_nil env _ hqe, heq]
      rfl
    have f1 := (tracks_flush_disk env fs path _ _ h2 hq hidle hfl).1
    simp only [flatten_eq_nil_of_nonempty _ hne'] at f1
    exact f1

theorem capacity_keeps_first_writes_witness :
    (writeAll 2 (openFile goodEnv [] (new noFiles) "r.rep").1
      [[65], [66], [67]]).m_peakQueueSize = 2 ∧
    droppedWrites (writeAll 2 (openFile goodEnv [] (new noFiles) "r.rep").1
      [[65], [66], [67]]) = 1 ∧
    (processQueue goodEnv (flush (processQueue goodEnv
      (writeAll 2 (openFile goodEnv [] (new noFiles) "r.rep").1
        [[65], [66], [67]])))).disk "r.rep" = some [65, 66] :=
  have h := capacity_keeps_first_writes goodEnv noFiles "r.rep" 2 [[65], [66], [67]]
    (by decide) (by decide)
  ⟨h.2.2.1, h.2.2.2.1, (h.2.2.2.2 (by decide) (fun _ _ => rfl)).2.2 rfl⟩

/-- C4 fails on the code: `flush` pushes with no test of the limit, so 1025 `flush()` calls
on a freshly constructed writer, made before the worker runs, leave 1025 commands queued,
more than `MAX_QUEUE_SIZE`. -/
theorem flush_exceeds_capacity :
    (flush^[1025] (new noFiles)).m_writeQueue.length = 1025 ∧
    ¬ ((flush^[1025] (new noFiles)).m_writeQueue.length ≤ MAX_QUEUE_SIZE) := by
  have h : (flush^[1025] (new noFiles)).m_writeQueue.length = 1025 := by
    rw [flush_iterate_queue]
    simp only [new, List.nil_append, List.length_replicate]
  exact ⟨h, by rw [h]; decide⟩

/-- C5, as the claim states it, fails: a writer with no target recorded and one WriteData
command queued runs its exit sequence without writing, and `m_totalWrites` stays 0. -/
theorem exit_no_target_counterexample :
    writeCount (writeData (new noFiles) [65]).m_writeQueue = 1 ∧
    (writerThreadExit goodEnv (writeData (new noFiles) [65])).m_totalWrites = 0 ∧
    ¬ (writeCount (writeData (new noFiles) [65]).m_writeQueue ≤
      (writerThreadExit goodEnv (writeData (new noFiles) [65])).m_totalWrites) := by
  decide

/-- C5, amended: in every writer state the exit sequence of the worker executes all queued
commands in queue order (the final drain is `executeCommand` folded over the queue), and
only then flushes and closes the handle if one is open; it leaves the queue empty and no
handle open.  When a target path is recorded and opens, every queued WriteData command
carries a buffer of positive size and the 32-bit counter does not wrap, `m_totalWrites`
grows by the number `N` of queued WriteData commands, so it is at least `N` afterwards. -/
theorem exit_drains_then_closes (env : Env) (s : State) :
    processQueue env s = executeAll env { s with m_writeQueue := [] } s.m_writeQueue ∧
    (writerThreadExit env s).m_writeQueue = [] ∧
    (writerThreadExit env s).m_file = none ∧
    (writerThreadExit env s).files = (processQueue env s).files ∧
    (writerThreadExit env s).m_totalWrites = (processQueue env s).m_totalWrites ∧
    (writerThreadExit env s).calls = (processQueue env s).calls ++
      (match (processQueue env s).m_file with
        | some h => [SysCall.fflush h.path, SysCall.fclose h.path]
        | none => []) ∧
    (s.m_filename ≠ "" → env.opens s.m_filename = true →
      (∀ c ∈ s.m_writeQueue, c.type = CommandType.CMD_WRITE_DATA → carriesData c = true) →
      s.m_totalWrites + writeCount s.m_writeQueue < UINT_RANGE →
      (writerThreadExit env s).m_totalWrites = s.m_totalWrites + writeCount s.m_writeQueue ∧
      writeCount s.m_writeQueue ≤ (writerThreadExit env s).m_totalWrites) := by
  have hq := processQueue_queue env s
  have hexit : (writerThreadExit env s).m_writeQueue = [] ∧
      (writerThreadExit env s).m_file = none ∧
      (writerThreadExit env s).files = (processQueue env s).files ∧
      (writerThreadExit env s).m_totalWrites = (processQueue env s).m_totalWrites ∧
      (writerThreadExit env s).calls = (processQueue env s).calls ++
        (match (processQueue env s).m_file with
          | some h => [SysCall.fflush h.path, SysCall.fclose h.path]
          | none => []) := by
    unfold writerThreadExit
    dsimp only
    cases hf : (processQueue env s).m_file with
    | none => simp [hq, hf]
    | some h => simp [hq, fclose, fflush]
  refine ⟨processQueue_eq_executeAll env s, hexit.1, hexit.2.1, hexit.2.2.1, hexit.2.2.2.1,
    hexit.2.2.2.2, ?_⟩
  intro hname hopen hbuf hwrap
  have htw := executeAll_totalWrites env s.m_writeQueue { s with m_writeQueue := [] }
    hname hopen hbuf hwrap
  rw [← processQueue_eq_executeAll] at htw
  rw [hexit.2.2.2.1, htw]
  exact ⟨rfl, Nat.le_add_left _ _⟩

theorem exit_drains_then_closes_witness :
    (writerThreadExit goodEnv twoQueued).m_file = none ∧
    (writerThreadExit goodEnv twoQueued).m_totalWrites = 2 :=
  have h := exit_drains_then_closes goodEnv twoQueued
  ⟨h.2.2.1, (h.2.2.2.2.2.2 (by decide) (by decide) (by decide) (by decide)).1⟩

/-- C6, as the claim states it, fails: both paths open, every `fwrite` is complete and both
closes return with the queue drained, but on a device where `fflush` and `fclose` fail,
which the code does not notice, file A is left empty instead of holding x.  It is left empty
too on a device that takes no byte of any `fwrite`, which the code only logs. -/
theorem round_trip_counterexample :
    lossyEnv.opens "a.rep" = true ∧ lossyEnv.opens "b.rep" = true ∧ lossyEnv.complete ∧
    (writeAndClose lossyEnv [2] 0 (new noFiles) "a.rep" [120]).m_writeQueue = [] ∧
    (writeAndClose lossyEnv [2] 0
      (writeAndClose lossyEnv [2] 0 (new noFiles) "a.rep" [120]) "b.rep" [121]).m_writeQueue
      = [] ∧
    (writeAndClose lossyEnv [2] 0
      (writeAndClose lossyEnv [2] 0 (new noFiles) "a.rep" [120]) "b.rep" [121]).disk "a.rep"
      = some [] ∧
    (writeAndClose lossyEnv [2] 0
      (writeAndClose lossyEnv [2] 0 (new noFiles) "a.rep" [120]) "b.rep" [121]).disk "a.rep"
      ≠ some [120] ∧
    stuckEnv.durable ∧
    (writeAndClose stuckEnv [2] 0
      (writeAndClose stuckEnv [2] 0 (new noFiles) "a.rep" [120]) "b.rep" [121]).m_writeQueue
      = [] ∧
    (writeAndClose stuckEnv [2] 0
      (writeAndClose stuckEnv [2] 0 (new noFiles) "a.rep" [120]) "b.rep" [121]).disk "a.rep"
      ≠ some [120] :=
  ⟨by decide, by decide, fun _ _ => rfl, by decide, by decide, by decide, by decide,
    fun _ => rfl, by decide, by decide⟩

/-- C6, amended: for distinct paths A and B that open, non-empty buffers x and y and a
device on which every `fwrite` is complete and every `fflush` and `fclose` succeeds, run on
a fresh writer `openFile(A)`, `writeData(x)`, `closeFile()`, `openFile(B)`, `writeData(y)`,
`closeFile()`, the worker running at any pace, with the queue empty when each `closeFile`
returns.  Then file A holds exactly x, file B holds exactly y, every other file is what it
was, no handle is open and the queue is empty. -/
theorem round_trip_two_files (env : Env) (fs : Files) (A B : Path) (x y : List Byte)
    (p1 p2 : List Nat) (k1 k2 : Nat)
    (hAB : A ≠ B) (hA : env.opens A = true) (hB : env.opens B = true)
    (hx : x ≠ []) (hy : y ≠ []) (hc : env.complete) (hdur : env.durable)
    (hdr1 : (writeAndClose env p1 k1 (new fs) A x).m_writeQueue = [])
    (hdr2 : (writeAndClose env p2 k2
      (writeAndClose env p1 k1 (new fs) A x) B y).m_writeQueue = []) :
    (writeAndClose env p2 k2 (writeAndClose env p1 k1 (new fs) A x) B y).disk A = some x ∧
    (writeAndClose env p2 k2 (writeAndClose env p1 k1 (new fs) A x) B y).disk B = some y ∧
    (∀ p, p ≠ A → p ≠ B →
      (writeAndClose env p2 k2 (writeAndClose env p1 k1 (new fs) A x) B y).disk p = fs p) ∧
    (writeAndClose env p2 k2 (writeAndClose env p1 k1 (new fs) A x) B y).m_file = none ∧
    (writeAndClose env p2 k2 (writeAndClose env p1 k1 (new fs) A x) B y).m_writeQueue = [] := by
  obtain ⟨a1, a2, _, _⟩ :=
    writeAndClose_drained env fs A x p1 k1 (new fs) hA hc hx rfl rfl rfl hdr1
  obtain ⟨a3, a4⟩ :=
    writeAndClose_disk env fs A x p1 k1 (new fs) hA hc hdur hx rfl rfl rfl hdr1
  obtain ⟨b1, b2, _, _⟩ :=
    writeAndClose_drained env (writeAndClose env p1 k1 (new fs) A x).files B y p2 k2
      (writeAndClose env p1 k1 (new fs) A x) hB hc hy a1 a2 rfl hdr2
  obtain ⟨b3, b4⟩ :=
    writeAndClose_disk env (writeAndClose env p1 k1 (new fs) A x).files B y p2 k2
      (writeAndClose env p1 k1 (new fs) A x) hB hc hdur hy a1 a2 rfl hdr2
  refine ⟨by rw [b4 A hAB, a3], b3, ?_, b1, b2⟩
  intro p hpA hpB
  rw [b4 p hpB, a4 p hpA]
  rfl

theorem round_trip_two_files_witness :
    (writeAndClose goodEnv [2] 0
      (writeAndClose goodEnv [2] 0 (new noFiles) "a.rep" [120]) "b.rep" [121]).disk "a.rep"
      = some [120] ∧
    (writeAndClose goodEnv [2] 0
      (writeAndClose goodEnv [2] 0 (new noFiles) "a.rep" [120]) "b.rep" [121]).disk "b.rep"
      = some [121] :=
  have h := round_trip_two_files goodEnv noFiles "a.rep" "b.rep" [120] [121] [2] [2] 0 0
    (by decide) (by decide) (by decide) (by decide) (by decide) (fun _ _ => rfl)
    (fun _ => rfl) (by decide) (by decide)
  ⟨h.1, h.2.1⟩

/-- C7, as the claim states it, fails for `n = 1025`: with the 1025 `writeData` calls made
before the worker runs, the last one finds the queue full and is dropped, and the drain
makes 1024 open attempts, not 1025. -/
theorem failing_open_attempts_counterexample :
    noOpenEnv.opens "r.rep" = false ∧
    openAttempts (processQueue noOpenEnv
      (writeAll MAX_QUEUE_SIZE (openFile noOpenEnv [] (new noFiles) "r.rep").1
        (List.replicate 1025 [65]))) = 1024 ∧
    openAttempts (processQueue noOpenEnv
      (writeAll MAX_QUEUE_SIZE (openFile noOpenEnv [] (new noFiles) "r.rep").1
        (List.replicate 1025 [65]))) ≠ (List.replicate 1025 ([65] : List Byte)).length := by
  have h := failing_sequential noOpenEnv noFiles "r.rep" (by decide) (by decide)
    (List.replicate 1025 [65])
  rw [List.length_replicate] at h ⊢
  have hmin : min 1025 MAX_QUEUE_SIZE = 1024 := by decide
  rw [hmin] at h
  exact ⟨by decide, h, by rw [h]; decide⟩

/-- C7, amended: for a non-empty target path whose open always fails, `openFile(path)` on a
fresh writer followed by any interleaving of `writeData` calls and worker iterations and a
full drain leaves the file system as it was, in the streams and on the device (no file
created, the last conjunct being the device), no handle open, the queue
empty, `m_totalWrites = 0` and `m_totalBytesWritten = 0`; every library call made is a
failed `fopen` of the target, one per WriteData command executed: the number of attempts
plus the number of writes dropped for a full queue is the number `n` of calls.  So the
attempts are exactly `n` when the queue is never full at a call, and `min n 1024` when the
`n` calls are made before the worker runs. -/
theorem failing_open_one_attempt_per_write (env : Env) (fs : Files) (path : Path)
    (acts : List Action) (hpath : path ≠ "") (hfail : env.opens path = false) :
    (processQueue env (runActions env (openFile env [] (new fs) path).1 acts)).files = fs ∧
    (processQueue env (runActions env (openFile env [] (new fs) path).1 acts)).m_file = none ∧
    (processQueue env
      (runActions env (openFile env [] (new fs) path).1 acts)).m_writeQueue = [] ∧
    (processQueue env
      (runActions env (openFile env [] (new fs) path).1 acts)).m_totalWrites = 0 ∧
    (processQueue env
      (runActions env (openFile env [] (new fs) path).1 acts)).m_totalBytesWritten = 0 ∧
    (∀ c ∈ (processQueue env (runActions env (openFile env [] (new fs) path).1 acts)).calls,
      c = SysCall.fopen path false) ∧
    openAttempts (processQueue env (runActions env (openFile env [] (new fs) path).1 acts)) +
      droppedWrites (processQueue env
        (runActions env (openFile env [] (new fs) path).1 acts)) = (writesOf acts).length ∧
    (neverFull env (openFile env [] (new fs) path).1 acts = true →
      openAttempts (processQueue env
        (runActions env (openFile env [] (new fs) path).1 acts)) = (writesOf acts).length) ∧
    (∀ bufs : List (List Byte),
      openAttempts (processQueue env
        (writeAll MAX_QUEUE_SIZE (openFile env [] (new fs) path).1 bufs)) =
        min bufs.length MAX_QUEUE_SIZE) ∧
    (processQueue env (runActions env (openFile env [] (new fs) path).1 acts)).disk = fs := by
  obtain ⟨h0, hs0, hd0⟩ := failing_openFile_new env [] fs path
  obtain ⟨h1, h2, h3⟩ := failing_runActions env fs path hpath hfail acts _ h0
  obtain ⟨⟨f1, _, f3, f4, f5, _, f7⟩, hq, h4, h5⟩ :=
    failing_drained env fs path hpath hfail _ h1
  rw [h2, hs0, Nat.zero_add] at h4
  refine ⟨f3.1, f1, hq, f4, f5, f7, h4, ?_, failing_sequential env fs path hpath hfail, f3.2⟩
  intro hroom
  rw [h5, h3 hroom, hd0] at h4
  simpa using h4

theorem failing_open_one_attempt_per_write_witness :
    (processQueue noOpenEnv (runActions noOpenEnv
      (openFile noOpenEnv [] (new noFiles) "r.rep").1
      [Action.write [1], Action.write [2], Action.write [3], Action.write [4],
        Action.write [5]])).files = noFiles ∧
    openAttempts (processQueue noOpenEnv (runActions noOpenEnv
      (openFile noOpenEnv [] (new noFiles) "r.rep").1
      [Action.write [1], Action.write [2], Action.write [3], Action.write [4],
        Action.write [5]])) = 5 :=
  have h := failing_open_one_attempt_per_write noOpenEnv noFiles "r.rep"
    [Action.write [1], Action.write [2], Action.write [3], Action.write [4], Action.write [5]]
    (by decide) (by decide)
  ⟨h.1, h.2.2.2.2.2.2.2.1 (by decide)⟩

/-- C8, as the claim states it, fails: in `staleState` the handle is open on `a.rep`, a
target other than `b.rep`, and the queue holds a Close and a Flush; the target name was
cleared by the `closeFile()` that timed out, so the `closeFile` that `openFile("b.rep")`
calls returns at its guard and pushes nothing: the queue is unchanged and no Close stands
behind the Flush. -/
theorem openFile_stale_target_counterexample :
    staleState.m_file = some { path := "a.rep", pos := 1 } ∧
    staleState.m_filename = "" ∧
    staleState.m_writeQueue = [closeCommand, flushCommand] ∧
    (openFile goodEnv [] staleState "b.rep").1.m_writeQueue = [closeCommand, flushCommand] ∧
    (openFile goodEnv [] staleState "b.rep").1.m_writeQueue ≠
      staleState.m_writeQueue ++ [closeCommand] ∧
    (openFile goodEnv [] staleState "b.rep").1.m_filename = "b.rep" := by
  decide

/-- C8, amended: in every state where a handle is open, `openFile(P)` returns TRUE and
leaves `P` as the recorded target, and the state it leaves is that of `closeFile()` run
first with `P` recorded afterwards.  When the recorded target name is not empty that
`closeFile` pushes a Close command behind every command already queued: the queue
`openFile` leaves is the old queue followed by Close, less the `k` front commands the worker
executed during the wait, and is exactly the old queue followed by Close when the worker did
not run.  When the recorded target name is empty (cleared by an earlier `closeFile` whose
Close the worker has not executed yet) nothing is pushed: `openFile` only records `P`. -/
theorem openFile_closes_open_target (env : Env) (progress : List Nat) (s : State) (P : Path)
    (hopen : s.m_file ≠ none) :
    (openFile env progress s P).2 = true ∧
    (openFile env progress s P).1.m_filename = P ∧
    (openFile env progress s P).1 =
      { closeFile env progress s with
          m_filename := P,
          log := (closeFile env progress s).log ++ [LogMsg.queuedOpen P] } ∧
    (s.m_filename ≠ "" →
      (∃ k, closeFile env progress s =
          { workerRun env k { s with m_writeQueue := s.m_writeQueue ++ [closeCommand] } with
              m_filename := "" } ∧
        (openFile env progress s P).1.m_writeQueue =
          (s.m_writeQueue ++ [closeCommand]).drop k) ∧
      (openFile env [] s P).1.m_writeQueue = s.m_writeQueue ++ [closeCommand]) ∧
    (s.m_filename = "" →
      (openFile env progress s P).1 =
        { s with m_filename := P, log := s.log ++ [LogMsg.queuedOpen P] } ∧
      (openFile env progress s P).1.m_writeQueue = s.m_writeQueue) := by
  refine ⟨rfl, rfl, by simp [openFile, hopen], ?_, ?_⟩
  · intro htarget
    constructor
    · obtain ⟨k, hk⟩ := closeFile_eq env progress s htarget
      refine ⟨k, hk, ?_⟩
      have hq := (workerRun_queue env k (closeFileEnqueue s)).1
      simp only [openFile, hopen, ne_eq, not_false_eq_true, if_true, hk]
      simpa [closeFileEnqueue] using hq
    · simp [openFile, hopen, closeFile_noProgress env s htarget, closeFileEnqueue]
  · intro hempty
    constructor <;> simp [openFile, hopen, closeFile, hempty]

theorem openFile_closes_open_target_witness :
    busyState.m_writeQueue = [seekCommand 4 0, flushCommand] ∧
    (openFile goodEnv [] busyState "b.rep").1.m_filename = "b.rep" ∧
    (openFile goodEnv [] busyState "b.rep").1.m_writeQueue =
      [seekCommand 4 0, flushCommand, closeCommand] :=
  have h := openFile_closes_open_target goodEnv [] busyState "b.rep" (by decide)
  ⟨rfl, h.2.1, (h.2.2.2.1 (by decide)).2⟩

/-- C9, as the claim states it, fails: on a freshly constructed writer (no target
recorded) `closeFile()` returns at once and the queue stays empty. -/
theorem closeFile_no_target_counterexample :
    ¬ ((closeFile goodEnv [] (new noFiles)).m_writeQueue =
        (new noFiles).m_writeQueue ++ [closeCommand]) := by
  decide

/-- C9, amended: in a state whose recorded target path is not empty, `closeFile()` pushes
exactly one Close command behind the commands already queued, which keep their order: the
state it leaves is that of the worker making some number `k` of iterations on the old queue
followed by Close, with the target cleared, so the queue left is the old queue followed by
Close less its first `k` commands, and all of it when the worker did not run.  With an
empty target path `closeFile()` changes nothing. -/
theorem closeFile_appends_one_close (env : Env) (progress : List Nat) (s : State) :
    (s.m_filename ≠ "" →
      (∃ k, closeFile env progress s =
          { workerRun env k { s with m_writeQueue := s.m_writeQueue ++ [closeCommand] } with
              m_filename := "" } ∧
        (closeFile env progress s).m_writeQueue = (s.m_writeQueue ++ [closeCommand]).drop k) ∧
      (closeFile env [] s).m_writeQueue = s.m_writeQueue ++ [closeCommand]) ∧
    (s.m_filename = "" → closeFile env progress s = s) := by
  constructor
  · intro h
    constructor
    · obtain ⟨k, hk⟩ := closeFile_eq env progress s h
      refine ⟨k, hk, ?_⟩
      have hq := (workerRun_queue env k (closeFileEnqueue s)).1
      rw [hk]
      simpa [closeFileEnqueue] using hq
    · simp [closeFile_noProgress env s h, closeFileEnqueue]
  · intro h
    simp [closeFile, h]

theorem closeFile_appends_one_close_witness :
    busyState.m_writeQueue = [seekCommand 4 0, flushCommand] ∧
    (closeFile goodEnv [] busyState).m_writeQueue =
      [seekCommand 4 0, flushCommand, closeCommand] ∧
    closeFile goodEnv [] (new noFiles) = new noFiles :=
  have h := closeFile_appends_one_close goodEnv [] busyState
  have h0 := closeFile_appends_one_close goodEnv [] (new noFiles)
  ⟨rfl, (h.1 (by decide)).2, h0.2 rfl⟩

/-- C10: a facade call made with no worker step performs no library call and leaves the
handle, every file (in the streams and on the device), `m_totalWrites` and
`m_totalBytesWritten` as they were; this holds for
`openFile`, `closeFile`, `writeData`, `seek` and `flush`, and `getPendingWrites` only reads
the queue length. -/
theorem facade_leaves_output (env : Env) (s : State) (P : Path) (data : List Byte)
    (offset : Nat) (origin : Int) :
    sameOutput s (openFile env [] s P).1 ∧
    sameOutput s (closeFile env [] s) ∧
    sameOutput s (writeData s data) ∧
    sameOutput s (seek s offset origin) ∧
    sameOutput s (flush s) ∧
    getPendingWrites s = s.m_writeQueue.length % 2 ^ 32 := by
  refine ⟨?_, closeFile_sameOutput env s, ?_, ?_, ?_, rfl⟩
  · have h := closeFile_sameOutput env s
    unfold openFile
    split
    · exact h
    · exact sameOutput_refl s
  · unfold writeData writeDataCap
    split
    · exact sameOutput_refl s
    · dsimp only
      split <;> exact ⟨rfl, rfl, rfl, rfl, rfl, rfl⟩
  · exact ⟨rfl, rfl, rfl, rfl, rfl, rfl⟩
  · exact ⟨rfl, rfl, rfl, rfl, rfl, rfl⟩

/-- C11, as the claim states it, fails: with `m_totalWrites` at `2^32 - 1` and a handle
open, executing one WriteData command wraps the counter to 0, below its old value. -/
theorem counter_wraps_counterexample :
    lastCountState.m_totalWrites = 4294967295 ∧
    (executeCommand goodEnv lastCountState (writeCommand [65])).m_totalWrites = 0 ∧
    ¬ (lastCountState.m_totalWrites ≤
      (executeCommand goodEnv lastCountState (writeCommand [65])).m_totalWrites) := by
  decide

/-- C11, amended: no facade call made with no worker step lowers `m_totalWrites`,
`m_totalBytesWritten` or `m_peakQueueSize`; a command executed by the worker leaves
`m_peakQueueSize` as it is, does not lower `m_totalWrites` when `m_totalWrites + 1` is
below `2^32`, and does not lower `m_totalBytesWritten` when `m_totalBytesWritten` plus the
size of the command is below `2^32`: each counter grows until its 32-bit addition wraps. -/
theorem counters_grow_until_wrap (env : Env) (s : State) (cmd : ReplayWriteCommand)
    (P : Path) (data : List Byte) (offset : Nat) (origin : Int) :
    countersGrow s (openFile env [] s P).1 ∧
    countersGrow s (closeFile env [] s) ∧
    countersGrow s (writeData s data) ∧
    countersGrow s (seek s offset origin) ∧
    countersGrow s (flush s) ∧
    (executeCommand env s cmd).m_peakQueueSize = s.m_peakQueueSize ∧
    (s.m_totalWrites + 1 < UINT_RANGE →
      s.m_totalWrites ≤ (executeCommand env s cmd).m_totalWrites) ∧
    (s.m_totalBytesWritten + cmd.dataSize < UINT_RANGE →
      s.m_totalBytesWritten ≤ (executeCommand env s cmd).m_totalBytesWritten) := by
  have hc := executeCommand_counters env s cmd
  refine ⟨?_, closeFile_countersGrow env s, writeData_countersGrow s data,
    countersGrow_refl s, countersGrow_refl s, (executeCommand_queue env s cmd).2.2, ?_, ?_⟩
  · have h := closeFile_countersGrow env s
    unfold openFile
    split
    · exact h
    · exact countersGrow_refl s
  · intro hw
    rcases hc.1 with h | h
    · rw [h]
    · rw [h, Nat.mod_eq_of_lt hw]
      exact Nat.le_succ _
  · intro hb
    rcases hc.2 with h | ⟨w, hw, h⟩
    · rw [h]
    · rw [h, Nat.mod_eq_of_lt (by omega)]
      exact Nat.le_add_right _ _

theorem counters_grow_until_wrap_witness :
    openState.m_totalWrites ≤
      (executeCommand goodEnv openState (writeCommand [65])).m_totalWrites ∧
    openState.m_totalBytesWritten ≤
      (executeCommand goodEnv openState (writeCommand [65])).m_totalBytesWritten :=
  have h := counters_grow_until_wrap goodEnv openState (writeCommand [65]) "b.rep" [] 0 0
  ⟨h.2.2.2.2.2.2.1 (by decide), h.2.2.2.2.2.2.2 (by decide)⟩

/-- C12 fails on the code: `flush` pushes without the peak update `writeData` makes, so
after one `flush()` on a freshly constructed writer the queue holds one command while
`m_peakQueueSize` is still 0, smaller than the current queue length. -/
theorem flush_skips_peak_update :
    (flush (new noFiles)).m_writeQueue.length = 1 ∧
    (flush (new noFiles)).m_peakQueueSize = 0 ∧
    ¬ ((flush (new noFiles)).m_writeQueue.length ≤ (flush (new noFiles)).m_peakQueueSize) := by
  decide

/-- C15: `processQueue`, run with no concurrent enqueue on a queue of `n` commands, leaves
the state that `executeCommand` on the first command, then the second, up to the last,
leaves, with the queue empty, whatever each command does.  After `k ≤ n` iterations of
its loop exactly the first `k` commands have been popped, so the `n`-th iteration empties
the queue, and iterating further changes nothing: the loop ends after `n` pops. -/
theorem processQueue_fifo_drain (env : Env) (s : State) :
    processQueue env s = executeAll env { s with m_writeQueue := [] } s.m_writeQueue ∧
    (processQueue env s).m_writeQueue = [] ∧
    (∀ k, k ≤ s.m_writeQueue.length →
      (processQueueLoop env k s).m_writeQueue = s.m_writeQueue.drop k ∧
      (processQueueLoop env k s).m_writeQueue.length = s.m_writeQueue.length - k) ∧
    (∀ fuel, s.m_writeQueue.length ≤ fuel →
      processQueueLoop env fuel s = processQueue env s) := by
  refine ⟨processQueue_eq_executeAll env s, processQueue_queue env s, ?_, ?_⟩
  · intro k _
    rw [processQueueLoop_eq_workerRun, (workerRun_queue env k s).1]
    exact ⟨rfl, List.length_drop k _⟩
  · intro fuel hfuel
    have hsplit : fuel = s.m_writeQueue.length + (fuel - s.m_writeQueue.length) := by omega
    rw [processQueueLoop_eq_workerRun, hsplit, ← workerRun_add, ← processQueue_eq_workerRun,
      workerRun_nil env _ _ (processQueue_queue env s)]

theorem processQueue_fifo_drain_witness :
    (processQueueLoop goodEnv 1 twoQueued).m_writeQueue = [writeCommand [66]] ∧
    processQueueLoop goodEnv 7 twoQueued = processQueue goodEnv twoQueued :=
  have h := processQueue_fifo_drain goodEnv twoQueued
  ⟨(h.2.2.1 1 (by decide)).1, h.2.2.2 7 (by decide)⟩

/-- C18, as the claim states it, fails: the path opens, every `fwrite` is complete and both
closes return with the queue drained, but on a device where `fflush` and `fclose` fail,
which the code does not notice, the file is left empty instead of holding y.  It is left
empty too on a device that takes no byte of any `fwrite`, which the code only logs. -/
theorem reopen_counterexample :
    lossyEnv.opens "a.rep" = true ∧ lossyEnv.complete ∧
    (writeAndClose lossyEnv [2] 0 (new noFiles) "a.rep" [120]).m_writeQueue = [] ∧
    (writeAndClose lossyEnv [2] 0
      (writeAndClose lossyEnv [2] 0 (new noFiles) "a.rep" [120]) "a.rep" [121]).m_writeQueue
      = [] ∧
    (writeAndClose lossyEnv [2] 0
      (writeAndClose lossyEnv [2] 0 (new noFiles) "a.rep" [120]) "a.rep" [121]).disk "a.rep"
      = some [] ∧
    (writeAndClose lossyEnv [2] 0
      (writeAndClose lossyEnv [2] 0 (new noFiles) "a.rep" [120]) "a.rep" [121]).disk "a.rep"
      ≠ some [121] ∧
    stuckEnv.durable ∧
    (writeAndClose stuckEnv [2] 0
      (writeAndClose stuckEnv [2] 0 (new noFiles) "a.rep" [120]) "a.rep" [121]).m_writeQueue
      = [] ∧
    (writeAndClose stuckEnv [2] 0
      (writeAndClose stuckEnv [2] 0 (new noFiles) "a.rep" [120]) "a.rep" [121]).disk "a.rep"
      ≠ some [121] :=
  ⟨by decide, fun _ _ => rfl, by decide, by decide, by decide, by decide, fun _ => rfl,
    by decide, by decide⟩

/-- C18, amended: for a path A that opens, non-empty buffers x and y and a device on which
every `fwrite` is complete and every `fflush` and `fclose` succeeds, run on a fresh writer
`openFile(A)`, `writeData(x)`, `closeFile()`, `openFile(A)`, `writeData(y)`, `closeFile()`,
the worker running at any pace, with the queue empty when each `closeFile` returns.  After
the first close file A holds x; after the second it holds exactly y, whatever the lengths
of x and y: the lazy open after the Close truncates the file and x is not preserved.  No
other file changes. -/
theorem reopen_truncates (env : Env) (fs : Files) (A : Path) (x y : List Byte)
    (p1 p2 : List Nat) (k1 k2 : Nat)
    (hA : env.opens A = true) (hx : x ≠ []) (hy : y ≠ []) (hc : env.complete)
    (hdur : env.durable)
    (hdr1 : (writeAndClose env p1 k1 (new fs) A x).m_writeQueue = [])
    (hdr2 : (writeAndClose env p2 k2
      (writeAndClose env p1 k1 (new fs) A x) A y).m_writeQueue = []) :
    (writeAndClose env p1 k1 (new fs) A x).disk A = some x ∧
    (writeAndClose env p2 k2 (writeAndClose env p1 k1 (new fs) A x) A y).disk A = some y ∧
    (∀ p, p ≠ A →
      (writeAndClose env p2 k2 (writeAndClose env p1 k1 (new fs) A x) A y).disk p = fs p) ∧
    (writeAndClose env p2 k2 (writeAndClose env p1 k1 (new fs) A x) A y).m_file = none := by
  obtain ⟨a1, a2, _, _⟩ :=
    writeAndClose_drained env fs A x p1 k1 (new fs) hA hc hx rfl rfl rfl hdr1
  obtain ⟨a3, a4⟩ :=
    writeAndClose_disk env fs A x p1 k1 (new fs) hA hc hdur hx rfl rfl rfl hdr1
  obtain ⟨b1, _, _, _⟩ :=
    writeAndClose_drained env (writeAndClose env p1 k1 (new fs) A x).files A y p2 k2
      (writeAndClose env p1 k1 (new fs) A x) hA hc hy a1 a2 rfl hdr2
  obtain ⟨b3, b4⟩ :=
    writeAndClose_disk env (writeAndClose env p1 k1 (new fs) A x).files A y p2 k2
      (writeAndClose env p1 k1 (new fs) A x) hA hc hdur hy a1 a2 rfl hdr2
  refine ⟨a3, b3, ?_, b1⟩
  intro p hp
  rw [b4 p hp, a4 p hp]
  rfl

theorem reopen_truncates_witness :
    (writeAndClose goodEnv [2] 0 (new noFiles) "a.rep" [120, 121, 122]).disk "a.rep" =
      some [120, 121, 122] ∧
    (writeAndClose goodEnv [2] 0
      (writeAndClose goodEnv [2] 0 (new noFiles) "a.rep" [120, 121, 122]) "a.rep"
      [65]).disk "a.rep" = some [65] :=
  have h := reopen_truncates goodEnv noFiles "a.rep" [120, 121, 122] [65] [2] [2] 0 0
    (by decide) (by decide) (by decide) (fun _ _ => rfl) (fun _ => rfl) (by decide)
    (by decide)
  ⟨h.1, h.2.1⟩

/-- C13 fails on the code: in the loop of `writerThreadMain`, when the wait is not
signalled, `m_writeQueue.empty()` is read with the lock not held, so the trace of such an
iteration breaks the lock discipline whatever the queue holds.  Every other access keeps
it: `processQueue`, `writeData`, `seek`, `flush`, `getPendingWrites`, `closeFile`,
`openFile` and the clean-up loop of the destructor touch the queue only between
`EnterCriticalSection` and `LeaveCriticalSection`. -/
theorem worker_wait_reads_queue_unlocked :
    lockedAccess false (writerThreadMainEvents [(false, 0)] 0) = false ∧
    (∀ pending, lockedAccess false (wakeEvents false pending) = false) ∧
    (∀ pending, lockedAccess false (wakeEvents true pending) = true) ∧
    (∀ n, lockedAccess false (processQueueEvents n) = true) ∧
    (∀ full, lockedAccess false (writeDataEvents full) = true) ∧
    lockedAccess false pushEvents = true ∧
    lockedAccess false getPendingWritesEvents = true ∧
    (∀ nameEmpty polls, lockedAccess false (closeFileEvents nameEmpty polls) = true) ∧
    (∀ handleOpen nameEmpty polls,
      lockedAccess false (openFileEvents handleOpen nameEmpty polls) = true) ∧
    (∀ n, lockedAccess false (destructorEvents n) = true) := by
  refine ⟨by decide, ?_, ?_, processQueueEvents_locked, by decide, by decide, by decide,
    closeFileEvents_locked, ?_, destructorEvents_locked⟩
  · intro pending
    simp [wakeEvents, lockedAccess]
  · intro pending
    simpa [wakeEvents] using processQueueEvents_locked pending
  · intro handleOpen nameEmpty polls
    unfold openFileEvents
    split
    · exact closeFileEvents_locked nameEmpty polls
    · rfl

end AsyncReplayWriter

namespace AIThrottleManager

/-! ## 32-bit arithmetic -/

theorem wrapInt_of_inInt32 (x : Int) (h : inInt32 x) : wrapInt x = x := by
  unfold inInt32 at h
  unfold wrapInt
  omega

theorem shouldUpdateThisFrame_value (globalData : Option Bool) (s : State)
    (a : AIUpdateInterface) (obj : GameObject)
    (hg : globalData ≠ some false) (hen : s.m_config.enabled = true)
    (hobj : a.object = some obj) :
    (shouldUpdateThisFrame globalData s (some a)).2 =
      decide (s.m_currentFrame %
          toUnsigned (effectiveInterval s.m_config a.priority s.m_currentThrottleMultiplier) =
        toUnsigned (Int.tmod obj.id
          (effectiveInterval s.m_config a.priority s.m_currentThrottleMultiplier))) := by
  simp [shouldUpdateThisFrame, hg, hen, hobj]

/-- C14: with the default `AIThrottleConfig`, `shouldUpdateThisFrame` returns TRUE for every
AI with an object whose priority is `AI_PRIORITY_CRITICAL`, whatever the frame counter, the
object id, the adaptive multiplier, the statistics and the global setting. -/
theorem critical_updates_every_frame (globalData : Option Bool) (s : State)
    (a : AIUpdateInterface) (obj : GameObject)
    (hcfg : s.m_config = AIThrottleConfig.default) (hobj : a.object = some obj)
    (hp : a.priority = AIUpdatePriority.AI_PRIORITY_CRITICAL) :
    (shouldUpdateThisFrame globalData s (some a)).2 = true := by
  by_cases hg : globalData = some false
  · simp [shouldUpdateThisFrame, hg]
  · rw [shouldUpdateThisFrame_value globalData s a obj hg (by rw [hcfg]; rfl) hobj]
    have hint : effectiveInterval s.m_config a.priority s.m_currentThrottleMultiplier = 1 := by
      rw [hcfg, hp]
      simp [effectiveInterval, AIThrottleConfig.default]
    rw [hint, Int.tmod_one]
    have h1 : toUnsigned 1 = 1 := by decide
    have h0 : toUnsigned 0 = 0 := by decide
    rw [h1, h0, Nat.mod_one]
    rfl

theorem critical_updates_every_frame_witness :
    (shouldUpdateThisFrame (some true) (atFrame 12345) (some criticalAI)).2 = true :=
  critical_updates_every_frame (some true) (atFrame 12345) criticalAI { id := 7 } rfl rfl rfl

end AIThrottleManager
